import Mathlib

/-!
# PackageKit zypp backend: event receivers (`backends/zypp/zypp-events.h`)

A shallow embedding of the receivers of `zypp-events.h` and proofs about them.

* C strings are lists of characters; a `gchar *` into the buffer `basename`
  is the index of the cell it points at.  A pointer moved below `basename`
  and then dereferenced is reported as `Fault.outOfBounds`.
* `guint` values are natural numbers; the `int` to `guint` conversion at the
  call `update_sub_percentage (value)` is taken modulo `2^32`.
* The calls made on `_backend` are collected, in order, as a list of
  `SinkCall`.  The `fprintf (stderr, ...)` diagnostics are not calls on the
  backend and are left out.
* `connect ()` and `disconnect ()` are libzypp functions.  The calls made on
  the members of the director are collected, in order, as a list of
  `ReportCall`, and the director keeps the list of its members that are
  connected.
-/

namespace ZyppBackend

/-! ## C strings -/

/-- The terminator of a C string. -/
def NUL : Char := Char.ofNat 0

/-- Characters of the C string that starts at the beginning of `s`: those
before the first NUL. -/
def cstr (s : List Char) : List Char :=
  s.takeWhile (fun c => c != NUL)

/-- The C string read through a pointer to cell `i` of `buf`. -/
def cstrAt (buf : List Char) (i : Nat) : List Char :=
  cstr (buf.drop i)

/-- The buffer `g_strdup (s)` allocates: the characters of `s` up to its
terminator, and a terminator. -/
def g_strdup (s : List Char) : List Char :=
  cstr s ++ [NUL]

/-- Backward scan of `g_strrstr`: `p` runs from its start position down to the
beginning of the haystack and stops at the first position where the needle
matches. -/
def g_strrstr_scan (haystack needle : List Char) : Nat → Option Nat
  | 0 => if needle.isPrefixOf haystack then some 0 else none
  | p + 1 =>
    if needle.isPrefixOf (haystack.drop (p + 1)) then some (p + 1)
    else g_strrstr_scan haystack needle p

/-- GLib `g_strrstr (haystack, needle)`: the last occurrence of `needle` in
`haystack`, as an index into `haystack`, or `none` (NULL) when there is
none. -/
def g_strrstr (haystack needle : List Char) : Option Nat :=
  let h := cstr haystack
  let n := cstr needle
  if n.length = 0 then some 0
  else if h.length < n.length then none
  else g_strrstr_scan h n (h.length - n.length)

/-! ## Package ids -/

/-- Modelled from the spec: `pk_package_id_build` is defined in
`pk-package-id.c`, which is not part of the sources at hand.  The spec gives
the textual form of a package id as the four fields joined by semicolons,
`name;version-release;architecture;origin-tag`. -/
def pk_package_id_build (name version arch data : List Char) : List Char :=
  name ++ ';' :: version ++ ';' :: arch ++ ';' :: data

/-- What `zypp-events.h` reads from a `zypp::Resolvable`: `name ()`,
`edition ().asString ()` and `arch ().asString ()`. -/
structure Resolvable where
  name : List Char
  edition : List Char
  arch : List Char
  deriving DecidableEq, Repr

/-- What `zypp-events.h` reads from a `zypp::Url`: the string
`zypp::Pathname (url->getPathName ()).basename ()`, of which `g_strdup` copies
the characters before the first NUL. -/
structure Url where
  basename : List Char
  deriving DecidableEq, Repr

/-- A dereference outside the buffer. -/
inductive Fault where
  | outOfBounds
  deriving DecidableEq, Repr

/-- Result of a function that walks a buffer. -/
inductive Checked (α : Type) where
  | ok (a : α)
  | fault (f : Fault)
  deriving DecidableEq, Repr

/-- `ZyppBackendReceiver::build_package_id_from_resolvable`. -/
def build_package_id_from_resolvable (resolvable : Resolvable) : Option (List Char) :=
  some (pk_package_id_build resolvable.name resolvable.edition resolvable.arch
    "opensuse".toList)

/-- The architecture loop `for (tmp--; tmp != basename && tmp [0] != '.'; tmp--) {}`
after its initialiser: the argument is the cursor, the result the cursor at
loop exit. -/
def arch_scan (buf : List Char) : Nat → Nat
  | 0 => 0
  | t + 1 => if buf.getD (t + 1) NUL != '.' then arch_scan buf t else t + 1

/-- The edition loop after its initialiser:
`for (...; tmp != basename; tmp--) { if (tmp [0] == '-') { if (first_dash_found == FALSE)
{ first_dash_found = TRUE; continue; } else { break; } } }`.
The arguments are the cursor and `first_dash_found`, the result the cursor at
loop exit. -/
def edition_scan (buf : List Char) : Nat → Bool → Nat
  | 0, _ => 0
  | t + 1, first_dash_found =>
    if buf.getD (t + 1) NUL == '-' then
      if first_dash_found == false then edition_scan buf t true
      else t + 1
    else edition_scan buf t first_dash_found

/-- `ZyppBackendReceiver::build_package_id_from_url`.  `none` is the NULL
result.  Each `tmp--` that initialises a loop moves the cursor below
`basename` when the cursor is at cell 0; the loop then reads through it
(`tmp != basename` holds), which is the out-of-bounds fault. -/
def build_package_id_from_url (url : Url) : Checked (Option (List Char)) :=
  let basename := g_strdup url.basename
  match g_strrstr basename ".rpm".toList with
  | none => .ok none
  | some tmp =>
    -- Parse the architecture
    let basename := basename.set tmp NUL
    match tmp with
    | 0 => .fault .outOfBounds
    | t + 1 =>
      let tmp := arch_scan basename t
      let arch := tmp + 1
      -- Parse the edition
      let basename := basename.set tmp NUL
      match tmp with
      | 0 => .fault .outOfBounds
      | t + 1 =>
        let tmp := edition_scan basename t false
        let edition := tmp + 1
        -- Parse the name
        let basename := basename.set tmp NUL
        let name := 0
        .ok (some (pk_package_id_build (cstrAt basename name) (cstrAt basename edition)
          (cstrAt basename arch) "opensuse".toList))

/-! ## The sink and the receiver base -/

/-- The `PkStatusEnum` values used by the receivers. -/
inductive PkStatusEnum where
  | PK_STATUS_ENUM_INSTALL
  | PK_STATUS_ENUM_DOWNLOAD
  deriving DecidableEq, Repr

/-- The `PkInfoEnum` values used by the receivers. -/
inductive PkInfoEnum where
  | PK_INFO_ENUM_INSTALLING
  | PK_INFO_ENUM_INSTALLED
  | PK_INFO_ENUM_DOWNLOADING
  deriving DecidableEq, Repr

/-- A call made on `_backend`. -/
inductive SinkCall where
  | pk_backend_change_status (status : PkStatusEnum)
  | pk_backend_package (info : PkInfoEnum) (package_id : List Char) (summary : List Char)
  | pk_backend_change_sub_percentage (percentage : Nat)
  deriving DecidableEq, Repr

/-- The summary text every `pk_backend_package` call of this file passes. -/
def summary_todo : List Char :=
  "TODO: Put the package summary here if possible".toList

/-- The data members of `ZyppBackendReceiver` that the callbacks change
(`_backend` is the sink and does not change). -/
structure ZyppBackendReceiver where
  _package_id : Option (List Char)
  _sub_percentage : Nat
  deriving DecidableEq, Repr

/-- `ZyppBackendReceiver::initWithBackend`. -/
def initWithBackend : ZyppBackendReceiver :=
  { _package_id := none, _sub_percentage := 0 }

/-- `ZyppBackendReceiver::clear_package_id`. -/
def clear_package_id (r : ZyppBackendReceiver) : ZyppBackendReceiver :=
  if r._package_id != none then { r with _package_id := none } else r

/-- `ZyppBackendReceiver::update_sub_percentage`: the new receiver and the
calls made on the sink. -/
def update_sub_percentage (r : ZyppBackendReceiver) (percentage : Nat) :
    ZyppBackendReceiver × List SinkCall :=
  if r._sub_percentage == 0 && percentage == 100 then
    (r, [])
  else
    let percentage := (percentage / 10) * 10
    if percentage ≤ r._sub_percentage then
      (r, [])
    else
      let r := { r with _sub_percentage := percentage }
      (r, [.pk_backend_change_sub_percentage r._sub_percentage])

/-- `ZyppBackendReceiver::reset_sub_percentage`. -/
def reset_sub_percentage (r : ZyppBackendReceiver) : ZyppBackendReceiver × List SinkCall :=
  let r := { r with _sub_percentage := 0 }
  (r, [.pk_backend_change_sub_percentage r._sub_percentage])

/-- Conversion of an `int` argument to the `guint` parameter of
`update_sub_percentage`. -/
def guint_of_int (value : Int) : Nat :=
  (value % 4294967296).toNat

/-- A run of `update_sub_percentage` calls on one receiver, one per raw
value, with the sink calls in order. -/
def feed (r : ZyppBackendReceiver) : List Nat → ZyppBackendReceiver × List SinkCall
  | [] => (r, [])
  | p :: ps =>
    let first := update_sub_percentage r p
    let rest := feed first.1 ps
    (rest.1, first.2 ++ rest.2)

/-- The values of the `pk_backend_change_sub_percentage` calls of a trace. -/
def sub_percentages : List SinkCall → List Nat
  | [] => []
  | .pk_backend_change_sub_percentage p :: cs => p :: sub_percentages cs
  | _ :: cs => sub_percentages cs

/-! ## `InstallResolvableReportReceiver` -/

namespace InstallResolvableReportReceiver

/-- The answer of a `problem` callback. -/
inductive Action where
  | ABORT
  | RETRY
  | IGNORE
  deriving DecidableEq, Repr

/-- `InstallResolvableReportReceiver::start`. -/
def start (r : ZyppBackendReceiver) (resolvable : Resolvable) :
    ZyppBackendReceiver × List SinkCall :=
  let r := clear_package_id r
  let r := { r with _package_id := build_package_id_from_resolvable resolvable }
  match r._package_id with
  | some package_id =>
    let (r, out) := reset_sub_percentage r
    (r, [.pk_backend_change_status .PK_STATUS_ENUM_INSTALL,
         .pk_backend_package .PK_INFO_ENUM_INSTALLING package_id summary_todo] ++ out)
  | none => (r, [])

/-- `InstallResolvableReportReceiver::progress`: the new receiver, the sink
calls and the returned `bool`. -/
def progress (r : ZyppBackendReceiver) (value : Int) (_resolvable : Resolvable) :
    ZyppBackendReceiver × List SinkCall × Bool :=
  if r._package_id != none then
    let (r, out) := update_sub_percentage r (guint_of_int value)
    (r, out, true)
  else (r, [], true)

/-- `InstallResolvableReportReceiver::problem`.  The enumerations `Error` and
`RpmLevel` are declared by libzypp; `error` and `level` are passed as the
integer value of their enumerator. -/
def problem (r : ZyppBackendReceiver) (_resolvable : Resolvable) (_error : Nat)
    (_description : List Char) (_level : Nat) :
    ZyppBackendReceiver × List SinkCall × Action :=
  (r, [], .ABORT)

/-- `InstallResolvableReportReceiver::finish`.  The source does not read its
arguments `error`, `reason` and `level`; they are left out. -/
def finish (r : ZyppBackendReceiver) (_resolvable : Resolvable) :
    ZyppBackendReceiver × List SinkCall :=
  match r._package_id with
  | some package_id =>
    (clear_package_id r,
      [.pk_backend_package .PK_INFO_ENUM_INSTALLED package_id summary_todo])
  | none => (r, [])

/-- A callback the engine makes on the install channel. -/
inductive Callback where
  | start (resolvable : Resolvable)
  | progress (value : Int) (resolvable : Resolvable)
  | problem (resolvable : Resolvable) (error : Nat) (description : List Char) (level : Nat)
  | finish (resolvable : Resolvable)
  deriving DecidableEq, Repr

/-- One callback: the new receiver and the sink calls. -/
def step (r : ZyppBackendReceiver) : Callback → ZyppBackendReceiver × List SinkCall
  | .start d => start r d
  | .progress v d => ((progress r v d).1, (progress r v d).2.1)
  | .problem d e t l => ((problem r d e t l).1, (problem r d e t l).2.1)
  | .finish d => finish r d

/-- A sequence of callbacks on one receiver, with the sink calls in order. -/
def run (r : ZyppBackendReceiver) : List Callback → ZyppBackendReceiver × List SinkCall
  | [] => (r, [])
  | c :: cs =>
    let first := step r c
    let rest := run first.1 cs
    (rest.1, first.2 ++ rest.2)

end InstallResolvableReportReceiver

/-! ## `DownloadProgressReportReceiver` -/

namespace DownloadProgressReportReceiver

/-- `DownloadProgressReportReceiver::start`.  The source does not read its
argument `localfile`; it is left out. -/
def start (r : ZyppBackendReceiver) (file : Url) :
    Checked (ZyppBackendReceiver × List SinkCall) :=
  let r := clear_package_id r
  match build_package_id_from_url file with
  | .fault f => .fault f
  | .ok id =>
    let r := { r with _package_id := id }
    match r._package_id with
    | some package_id =>
      let (r, out) := reset_sub_percentage r
      .ok (r, [.pk_backend_change_status .PK_STATUS_ENUM_DOWNLOAD,
               .pk_backend_package .PK_INFO_ENUM_DOWNLOADING package_id summary_todo] ++ out)
    | none => .ok (r, [])

/-- `DownloadProgressReportReceiver::progress`. -/
def progress (r : ZyppBackendReceiver) (value : Int) (_file : Url) :
    ZyppBackendReceiver × List SinkCall × Bool :=
  if r._package_id != none then
    let (r, out) := update_sub_percentage r (guint_of_int value)
    (r, out, true)
  else (r, [], true)

/-- `DownloadProgressReportReceiver::finish`.  The source does not read its
arguments `error` and `konreason`; they are left out. -/
def finish (r : ZyppBackendReceiver) (_file : Url) : ZyppBackendReceiver × List SinkCall :=
  (clear_package_id r, [])

/-- A callback the engine makes on the download channel, other than
`start`. -/
inductive Callback where
  | progress (value : Int) (file : Url)
  | finish (file : Url)
  deriving DecidableEq, Repr

/-- One callback other than `start`. -/
def step (r : ZyppBackendReceiver) : Callback → ZyppBackendReceiver × List SinkCall
  | .progress v f => ((progress r v f).1, (progress r v f).2.1)
  | .finish f => finish r f

/-- A sequence of callbacks other than `start` on one receiver. -/
def run (r : ZyppBackendReceiver) : List Callback → ZyppBackendReceiver × List SinkCall
  | [] => (r, [])
  | c :: cs =>
    let first := step r c
    let rest := run first.1 cs
    (rest.1, first.2 ++ rest.2)

end DownloadProgressReportReceiver

/-! ## `RepoProgressReportReceiver` and `RepoReportReceiver` -/

/-- What `zypp-events.h` reads from a `zypp::ProgressData`: `name ()` and
`val ()`. -/
structure ProgressData where
  name : List Char
  val : Int
  deriving DecidableEq, Repr

namespace RepoProgressReportReceiver

/-- `RepoProgressReportReceiver::start`. -/
def start (r : ZyppBackendReceiver) (_data : ProgressData) :
    ZyppBackendReceiver × List SinkCall :=
  (r, [])

/-- `RepoProgressReportReceiver::progress`: the new receiver, the sink calls
and the returned `bool`. -/
def progress (r : ZyppBackendReceiver) (_data : ProgressData) :
    ZyppBackendReceiver × List SinkCall × Bool :=
  (r, [], true)

/-- `RepoProgressReportReceiver::finish`. -/
def finish (r : ZyppBackendReceiver) (_data : ProgressData) :
    ZyppBackendReceiver × List SinkCall :=
  (r, [])

end RepoProgressReportReceiver

namespace RepoReportReceiver

/-- `RepoReportReceiver::start`. -/
def start (r : ZyppBackendReceiver) (_data : ProgressData) :
    ZyppBackendReceiver × List SinkCall :=
  (r, [])

/-- `RepoReportReceiver::progress`: the new receiver, the sink calls and the
returned `bool`. -/
def progress (r : ZyppBackendReceiver) (_data : ProgressData) :
    ZyppBackendReceiver × List SinkCall × Bool :=
  (r, [], true)

/-- `RepoReportReceiver::finish`. -/
def finish (r : ZyppBackendReceiver) (_data : ProgressData) :
    ZyppBackendReceiver × List SinkCall :=
  (r, [])

end RepoReportReceiver

/-! ## `EventDirector` -/

/-- The four receiver members of `EventDirector`. -/
inductive Member where
  | _repoReport
  | _repoProgressReport
  | _installResolvableReport
  | _downloadProgressReport
  deriving DecidableEq, Repr

/-- A call of `connect ()` or `disconnect ()` on a member. -/
inductive ReportCall where
  | connect (m : Member)
  | disconnect (m : Member)
  deriving DecidableEq, Repr

/-- The member a `connect ()` or `disconnect ()` call is made on. -/
def ReportCall.member : ReportCall → Member
  | .connect m => m
  | .disconnect m => m

/-- The data of an `EventDirector`: its four receivers, and which of them
libzypp currently holds as the receiver of its report type. -/
structure EventDirector where
  _repoReport : ZyppBackendReceiver
  _repoProgressReport : ZyppBackendReceiver
  _installResolvableReport : ZyppBackendReceiver
  _downloadProgressReport : ZyppBackendReceiver
  connected : List Member
  deriving DecidableEq, Repr

namespace EventDirector

/-- libzypp `ReceiveReport::connect ()` on member `m`: the member becomes the
receiver of its report type. -/
def connect (d : EventDirector) (m : Member) : EventDirector × List ReportCall :=
  ({ d with connected := m :: d.connected.filter (fun x => x != m) }, [.connect m])

/-- libzypp `ReceiveReport::disconnect ()` on member `m`: the member is no
longer the receiver of its report type. -/
def disconnect (d : EventDirector) (m : Member) : EventDirector × List ReportCall :=
  ({ d with connected := d.connected.filter (fun x => x != m) }, [.disconnect m])

/-- `EventDirector::EventDirector (PkBackend *backend)`: the new director and
the `connect ()` calls in order. -/
def constructor : EventDirector × List ReportCall :=
  let d : EventDirector :=
    { _repoReport := initWithBackend, _repoProgressReport := initWithBackend,
      _installResolvableReport := initWithBackend,
      _downloadProgressReport := initWithBackend, connected := [] }
  let c1 := connect d ._repoReport
  let c2 := connect c1.1 ._repoProgressReport
  let c3 := connect c2.1 ._installResolvableReport
  let c4 := connect c3.1 ._downloadProgressReport
  (c4.1, c1.2 ++ c2.2 ++ c3.2 ++ c4.2)

/-- `EventDirector::~EventDirector ()`: the director after the body of the
destructor and the `disconnect ()` calls in order. -/
def destructor (d : EventDirector) : EventDirector × List ReportCall :=
  let c1 := disconnect d ._repoReport
  let c2 := disconnect c1.1 ._repoProgressReport
  let c3 := disconnect c2.1 ._installResolvableReport
  let c4 := disconnect c3.1 ._downloadProgressReport
  (c4.1, c1.2 ++ c2.2 ++ c3.2 ++ c4.2)

end EventDirector

/-! ## Sequences of debouncer calls -/

/-- A call of one of the two member functions that write `_sub_percentage`. -/
inductive SubPercentageCall where
  | reset_sub_percentage
  | update_sub_percentage (percentage : Nat)
  deriving DecidableEq, Repr

/-- The raw value a call passes, if it is an update. -/
def SubPercentageCall.raw : SubPercentageCall → Option Nat
  | .reset_sub_percentage => none
  | .update_sub_percentage p => some p

/-- A sequence of `reset_sub_percentage` and `update_sub_percentage` calls on
one receiver, with the sink calls in order. -/
def calls (r : ZyppBackendReceiver) : List SubPercentageCall → ZyppBackendReceiver × List SinkCall
  | [] => (r, [])
  | .reset_sub_percentage :: cs =>
    let first := reset_sub_percentage r
    let rest := calls first.1 cs
    (rest.1, first.2 ++ rest.2)
  | .update_sub_percentage p :: cs =>
    let first := update_sub_percentage r p
    let rest := calls first.1 cs
    (rest.1, first.2 ++ rest.2)

/-! ## The debouncer: `update_sub_percentage` and `reset_sub_percentage` -/

/-- The two ways `update_sub_percentage` can go: it returns early and changes
nothing, or it stores the truncated value and sends it to the sink. -/
theorem update_sub_percentage_cases (r : ZyppBackendReceiver) (raw : Nat) :
    (update_sub_percentage r raw = (r, []) ∧
      (raw / 10 * 10 ≤ r._sub_percentage ∨ (r._sub_percentage = 0 ∧ raw = 100))) ∨
    (r._sub_percentage < raw / 10 * 10 ∧ ¬ (r._sub_percentage = 0 ∧ raw = 100) ∧
      update_sub_percentage r raw =
        ({ r with _sub_percentage := raw / 10 * 10 },
          [.pk_backend_change_sub_percentage (raw / 10 * 10)])) := by
  unfold update_sub_percentage
  by_cases h : r._sub_percentage = 0 ∧ raw = 100
  · simp [h.1, h.2]
  · by_cases h2 : raw / 10 * 10 ≤ r._sub_percentage
    · have h3 : ¬ (r._sub_percentage = 0 ∧ raw = 100) := h
      simp only [not_and] at h3
      simp [h2]
    · simp [h2]
      push_neg at h
      omega

/-- When the truncated value is above the stored one and the call is not the
spike `0 -> 100`, `update_sub_percentage` stores the truncated value and sends
it. -/
theorem update_sub_percentage_emit (r : ZyppBackendReceiver) (raw : Nat)
    (hlt : r._sub_percentage < raw / 10 * 10)
    (hspike : ¬ (r._sub_percentage = 0 ∧ raw = 100)) :
    update_sub_percentage r raw =
      ({ r with _sub_percentage := raw / 10 * 10 },
        [.pk_backend_change_sub_percentage (raw / 10 * 10)]) := by
  rcases update_sub_percentage_cases r raw with ⟨_, h | h⟩ | ⟨_, _, h⟩
  · omega
  · exact absurd h hspike
  · exact h

/-- A run of updates never lowers the stored value. -/
theorem feed_sub_percentage_le (raws : List Nat) :
    ∀ r : ZyppBackendReceiver, r._sub_percentage ≤ (feed r raws).1._sub_percentage := by
  induction raws with
  | nil => intro r; simp [feed]
  | cons p ps ih =>
    intro r
    simp only [feed]
    rcases update_sub_percentage_cases r p with ⟨h, _⟩ | ⟨hlt, _, h⟩
    · rw [h]; exact ih r
    · rw [h]
      exact le_trans (le_of_lt hlt) (ih { r with _sub_percentage := p / 10 * 10 })

/-- A run of updates makes only `pk_backend_change_sub_percentage` calls. -/
theorem feed_trace_eq_map (raws : List Nat) :
    ∀ r : ZyppBackendReceiver,
      (feed r raws).2 =
        (sub_percentages (feed r raws).2).map SinkCall.pk_backend_change_sub_percentage := by
  induction raws with
  | nil => intro r; simp [feed, sub_percentages]
  | cons p ps ih =>
    intro r
    simp only [feed]
    rcases update_sub_percentage_cases r p with ⟨h, _⟩ | ⟨_, _, h⟩
    · rw [h]; simpa using ih r
    · rw [h]
      simp only [List.singleton_append, sub_percentages, List.map_cons, List.cons.injEq,
        true_and]
      exact ih _

/-- Every value a run of updates sends is above the value stored before the
run, and the values sent are strictly increasing. -/
theorem feed_emitted_increasing (raws : List Nat) :
    ∀ r : ZyppBackendReceiver,
      (∀ v ∈ sub_percentages (feed r raws).2, r._sub_percentage < v) ∧
      (sub_percentages (feed r raws).2).Pairwise (fun a b => a < b) := by
  induction raws with
  | nil => intro r; simp [feed, sub_percentages]
  | cons p ps ih =>
    intro r
    simp only [feed]
    rcases update_sub_percentage_cases r p with ⟨h, _⟩ | ⟨hlt, _, h⟩
    · rw [h]; simpa using ih r
    · rw [h]
      have ih1 := ih { r with _sub_percentage := p / 10 * 10 }
      simp only [List.singleton_append, sub_percentages, List.mem_cons, forall_eq_or_imp,
        List.pairwise_cons]
      refine ⟨⟨hlt, fun v hv => lt_trans hlt (ih1.1 v hv)⟩, fun v hv => ih1.1 v hv, ih1.2⟩

/-- C2 (monotonicity of the debouncer).  For every receiver and every sequence
of raw values fed to `update_sub_percentage`, the run calls nothing on the sink
but `pk_backend_change_sub_percentage`, every value sent is above the value
stored before the run, and the values sent are strictly increasing.  When the
run follows a `reset_sub_percentage`, the sequence stays strictly increasing
with the `0` sent by the reset in front. -/
theorem update_sub_percentage_monotone (r : ZyppBackendReceiver) (raws : List Nat) :
    (feed r raws).2 =
        (sub_percentages (feed r raws).2).map SinkCall.pk_backend_change_sub_percentage ∧
      (∀ v ∈ sub_percentages (feed r raws).2, r._sub_percentage < v) ∧
      (sub_percentages (feed r raws).2).Pairwise (fun a b => a < b) ∧
      (sub_percentages
        ((reset_sub_percentage r).2 ++ (feed (reset_sub_percentage r).1 raws).2)).Pairwise
          (fun a b => a < b) := by
  refine ⟨feed_trace_eq_map raws r, (feed_emitted_increasing raws r).1,
    (feed_emitted_increasing raws r).2, ?_⟩
  have h := feed_emitted_increasing raws (reset_sub_percentage r).1
  simp only [reset_sub_percentage, List.singleton_append, sub_percentages,
    List.pairwise_cons] at h ⊢
  exact ⟨h.1, h.2⟩

/-- C5 (spike after reset).  Right after `reset_sub_percentage`, the stored value
is 0 and `update_sub_percentage (100)` sends nothing and leaves the receiver as
it is; for a raw value `raw` with `10 ≤ raw ≤ 99` right after a reset, the
update sends `raw` without its ones digit, and a following
`update_sub_percentage (100)` sends 100. -/
theorem update_sub_percentage_spike_after_reset (r : ZyppBackendReceiver) (raw : Nat)
    (hlo : 10 ≤ raw) (hhi : raw ≤ 99) :
    (reset_sub_percentage r).1._sub_percentage = 0 ∧
      update_sub_percentage (reset_sub_percentage r).1 100 = ((reset_sub_percentage r).1, []) ∧
      (update_sub_percentage (reset_sub_percentage r).1 raw).2 =
        [.pk_backend_change_sub_percentage (raw / 10 * 10)] ∧
      (update_sub_percentage (update_sub_percentage (reset_sub_percentage r).1 raw).1 100).2 =
        [.pk_backend_change_sub_percentage 100] := by
  have h1 : 0 < raw / 10 * 10 := by omega
  have h2 : raw / 10 * 10 < 100 := by omega
  have first := update_sub_percentage_emit (reset_sub_percentage r).1 raw h1
    (fun h => by omega)
  refine ⟨rfl, ?_, ?_, ?_⟩
  · simp [update_sub_percentage, reset_sub_percentage]
  · rw [first]
  · rw [first]
    rw [update_sub_percentage_emit _ 100 h2 (fun h => by simp at h; omega)]

/-- Witness of C5 at the raw value 50: 50 is sent, then 100. -/
theorem update_sub_percentage_spike_after_reset_witness :
    (10 ≤ 50 ∧ 50 ≤ 99) ∧
      (reset_sub_percentage initWithBackend).1._sub_percentage = 0 ∧
      update_sub_percentage (reset_sub_percentage initWithBackend).1 100 =
        ((reset_sub_percentage initWithBackend).1, []) ∧
      (update_sub_percentage (reset_sub_percentage initWithBackend).1 50).2 =
        [.pk_backend_change_sub_percentage (50 / 10 * 10)] ∧
      (update_sub_percentage
          (update_sub_percentage (reset_sub_percentage initWithBackend).1 50).1 100).2 =
        [.pk_backend_change_sub_percentage 100] :=
  ⟨by decide, update_sub_percentage_spike_after_reset initWithBackend 50 (by decide) (by decide)⟩

/-- C6 (decile truncation).  Whatever the receiver and the raw value, every call
`update_sub_percentage` makes on the sink is the single call
`pk_backend_change_sub_percentage (10 * (raw / 10))`; that value is a multiple
of ten, lies between `raw - 9` and `raw`, and is the new stored value.  After a
reset, `update_sub_percentage (57)` sends 50. -/
theorem update_sub_percentage_decile (r : ZyppBackendReceiver) (raw : Nat) :
    (∀ c ∈ (update_sub_percentage r raw).2,
        c = .pk_backend_change_sub_percentage (10 * (raw / 10)) ∧
        (update_sub_percentage r raw).2 = [c] ∧
        10 ∣ 10 * (raw / 10) ∧
        raw - 9 ≤ 10 * (raw / 10) ∧ 10 * (raw / 10) ≤ raw ∧ raw ≤ 10 * (raw / 10) + 9 ∧
        (update_sub_percentage r raw).1._sub_percentage = 10 * (raw / 10) ∧
        (update_sub_percentage r raw).1._package_id = r._package_id) ∧
      (update_sub_percentage (reset_sub_percentage r).1 57).2 =
        [.pk_backend_change_sub_percentage 50] := by
  refine ⟨?_, ?_⟩
  · intro c hc
    rcases update_sub_percentage_cases r raw with ⟨h, _⟩ | ⟨_, _, h⟩
    · rw [h] at hc; simp at hc
    · rw [h] at hc ⊢
      simp only [List.mem_singleton] at hc
      subst hc
      have e : raw / 10 * 10 = 10 * (raw / 10) := Nat.mul_comm _ _
      refine ⟨by rw [e], by rw [e], Dvd.intro _ rfl, by omega, by omega, by omega, e, rfl⟩
  · simp [update_sub_percentage, reset_sub_percentage]

/-- Witness of C6: on a fresh receiver the raw value 57 sends 50. -/
theorem update_sub_percentage_decile_witness :
    SinkCall.pk_backend_change_sub_percentage 50 ∈ (update_sub_percentage initWithBackend 57).2 ∧
      (update_sub_percentage initWithBackend 57).2 = [.pk_backend_change_sub_percentage 50] ∧
      (update_sub_percentage initWithBackend 57).1._sub_percentage = 10 * (57 / 10) :=
  ⟨by decide,
    ((update_sub_percentage_decile initWithBackend 57).1 _ (by decide)).2.1,
    ((update_sub_percentage_decile initWithBackend 57).1
      (.pk_backend_change_sub_percentage 50) (by decide)).2.2.2.2.2.2.1⟩

/-- C7 (idempotence under repeated input).  Whatever the receiver and the raw
value, a second `update_sub_percentage` with the same raw value sends nothing
and leaves the receiver as the first call left it; the two calls together make
at most one call on the sink. -/
theorem update_sub_percentage_idempotent (r : ZyppBackendReceiver) (raw : Nat) :
    (update_sub_percentage (update_sub_percentage r raw).1 raw).2 = [] ∧
      (update_sub_percentage (update_sub_percentage r raw).1 raw).1 =
        (update_sub_percentage r raw).1 ∧
      ((update_sub_percentage r raw).2 ++
        (update_sub_percentage (update_sub_percentage r raw).1 raw).2).length ≤ 1 := by
  have key : update_sub_percentage (update_sub_percentage r raw).1 raw =
      ((update_sub_percentage r raw).1, []) := by
    rcases update_sub_percentage_cases r raw with ⟨h, _⟩ | ⟨hlt, _, h⟩
    · rw [h]; exact h
    · rw [h]
      rcases update_sub_percentage_cases { r with _sub_percentage := raw / 10 * 10 } raw with
        ⟨h2, _⟩ | ⟨hlt2, _, _⟩
      · exact h2
      · exact absurd hlt2 (lt_irrefl _)
  refine ⟨by rw [key], by rw [key], ?_⟩
  rw [key]
  rcases update_sub_percentage_cases r raw with ⟨h, _⟩ | ⟨_, _, h⟩ <;> rw [h] <;> simp

/-! ## Searching for `.rpm` -/

/-- Reading the buffer of `g_strdup (s)` as a C string gives the characters of
`s`. -/
theorem cstr_g_strdup (s : List Char) : cstr (g_strdup s) = cstr s := by
  unfold g_strdup cstr
  induction s with
  | nil => decide
  | cons c cs ih =>
    by_cases h : (c != NUL) = true
    · simp only [List.takeWhile_cons, h, if_true, List.cons_append, List.cons.injEq, true_and]
      exact ih
    · simp only [List.takeWhile_cons, h]
      rfl

/-- The needle `.rpm` read as a C string. -/
theorem cstr_rpm : cstr ".rpm".toList = ['.', 'r', 'p', 'm'] := by decide

/-- The backward scan finds nothing in a haystack that does not contain the
needle. -/
theorem g_strrstr_scan_none (haystack needle : List Char) (h : ¬ needle <:+: haystack) :
    ∀ p, g_strrstr_scan haystack needle p = none := by
  have key : ∀ p, needle.isPrefixOf (haystack.drop p) = false := by
    intro p
    by_contra hp
    rw [Bool.not_eq_false, List.isPrefixOf_iff_prefix] at hp
    exact h (hp.isInfix.trans (List.drop_suffix p haystack).isInfix)
  intro p
  induction p with
  | zero =>
    have h0 := key 0
    simp only [List.drop_zero] at h0
    simp [g_strrstr_scan, h0]
  | succ p ih => simp [g_strrstr_scan, key (p + 1), ih]

/-- `g_strrstr` on the copy of a basename that does not contain `.rpm` returns
NULL. -/
theorem g_strrstr_none (b : List Char) (h : ¬ ".rpm".toList <:+: b) :
    g_strrstr (g_strdup b) ".rpm".toList = none := by
  have h2 : ¬ ['.', 'r', 'p', 'm'] <:+: cstr b := fun hi =>
    h (hi.trans (List.takeWhile_prefix _).isInfix)
  unfold g_strrstr
  simp only [cstr_g_strdup, cstr_rpm]
  by_cases hl : (cstr b).length < 4
  · simp [hl]
  · simp [hl, g_strrstr_scan_none _ _ h2]

/-- A basename that does not contain `.rpm` gives the NULL result, without
fault. -/
theorem build_package_id_from_url_null (url : Url) (h : ¬ ".rpm".toList <:+: url.basename) :
    build_package_id_from_url url = .ok none := by
  unfold build_package_id_from_url
  simp only [g_strrstr_none _ h]

/-- Counterexample to C3 as stated: the basename `lynx-2.8.6-63.i586.rpm.sig`
does not end in `.rpm`, and `build_package_id_from_url` returns the package id
`lynx;2.8.6-63;i586;opensuse` for it, not NULL. -/
theorem build_package_id_from_url_rpm_inside :
    ¬ (".rpm".toList <:+ "lynx-2.8.6-63.i586.rpm.sig".toList) ∧
      build_package_id_from_url ⟨"lynx-2.8.6-63.i586.rpm.sig".toList⟩ =
        .ok (some "lynx;2.8.6-63;i586;opensuse".toList) ∧
      build_package_id_from_url ⟨"lynx-2.8.6-63.i586.rpm.sig".toList⟩ ≠ .ok none := by
  decide

/-- C3, amended.  For every URL whose basename does not contain `.rpm` anywhere,
`build_package_id_from_url` returns NULL, and it does so without fault. -/
theorem build_package_id_from_url_without_rpm (url : Url)
    (h : ¬ ".rpm".toList <:+: url.basename) :
    build_package_id_from_url url = .ok none :=
  build_package_id_from_url_null url h

/-- Witness of C3 (amended) at the basename `repomd.xml`. -/
theorem build_package_id_from_url_without_rpm_witness :
    ¬ (".rpm".toList <:+: "repomd.xml".toList) ∧
      build_package_id_from_url ⟨"repomd.xml".toList⟩ = .ok none :=
  ⟨by decide, build_package_id_from_url_without_rpm ⟨"repomd.xml".toList⟩ (by decide)⟩

/-! ## The receivers -/

/-- `clear_package_id` leaves no package id and keeps the stored
percentage. -/
theorem clear_package_id_eq (r : ZyppBackendReceiver) :
    clear_package_id r = { _package_id := none, _sub_percentage := r._sub_percentage } := by
  unfold clear_package_id
  cases r with
  | mk id sub => cases id <;> simp

/-- What the install `start` callback does, whatever the receiver held. -/
theorem install_start_eq (r : ZyppBackendReceiver) (d : Resolvable) :
    InstallResolvableReportReceiver.start r d =
      ({ _package_id := some (pk_package_id_build d.name d.edition d.arch "opensuse".toList),
         _sub_percentage := 0 },
       [.pk_backend_change_status .PK_STATUS_ENUM_INSTALL,
        .pk_backend_package .PK_INFO_ENUM_INSTALLING
          (pk_package_id_build d.name d.edition d.arch "opensuse".toList) summary_todo,
        .pk_backend_change_sub_percentage 0]) := by
  simp [InstallResolvableReportReceiver.start, build_package_id_from_resolvable,
    reset_sub_percentage]

/-- A receiver that holds no package id makes no sink call on download
`progress` and `finish` callbacks, and still holds none afterwards. -/
theorem download_run_idle (cs : List DownloadProgressReportReceiver.Callback) :
    ∀ r : ZyppBackendReceiver, r._package_id = none →
      (DownloadProgressReportReceiver.run r cs).2 = [] ∧
      (DownloadProgressReportReceiver.run r cs).1._package_id = none := by
  induction cs with
  | nil => intro r h; simp [DownloadProgressReportReceiver.run, h]
  | cons c cs ih =>
    intro r h
    have hstep : (DownloadProgressReportReceiver.step r c).2 = [] ∧
        (DownloadProgressReportReceiver.step r c).1._package_id = none := by
      cases c with
      | progress v f =>
        simp [DownloadProgressReportReceiver.step, DownloadProgressReportReceiver.progress, h]
      | finish f =>
        simp [DownloadProgressReportReceiver.step, DownloadProgressReportReceiver.finish,
          clear_package_id_eq]
    have hrest := ih _ hstep.2
    simp only [DownloadProgressReportReceiver.run, hstep.1, hrest.1, hrest.2, List.append_nil,
      and_self]

/-- C4 (end-to-end install scenario).  For every resolvable `d`, every prior
receiver and every `v`, the callbacks `start (d)`, `progress (100, d)`,
`progress (45, d)`, `finish (d)`, `progress (v, d)` make exactly the sink calls
change_status (INSTALL), package (INSTALLING, id), change_sub_percentage (0),
change_sub_percentage (40), package (INSTALLED, id), where `id` is
`name;edition;arch;opensuse`, and leave the receiver without a package id.  The
100 after `start` sends nothing, 45 sends 40, and the `progress` after `finish`
sends nothing.  For the resolvable `vim` the id is `vim;7.1-44;i586;opensuse`. -/
theorem install_scenario (r : ZyppBackendReceiver) (d : Resolvable) (v : Int) :
    InstallResolvableReportReceiver.run r
        [.start d, .progress 100 d, .progress 45 d, .finish d, .progress v d] =
      ({ _package_id := none, _sub_percentage := 40 },
       [.pk_backend_change_status .PK_STATUS_ENUM_INSTALL,
        .pk_backend_package .PK_INFO_ENUM_INSTALLING
          (pk_package_id_build d.name d.edition d.arch "opensuse".toList) summary_todo,
        .pk_backend_change_sub_percentage 0,
        .pk_backend_change_sub_percentage 40,
        .pk_backend_package .PK_INFO_ENUM_INSTALLED
          (pk_package_id_build d.name d.edition d.arch "opensuse".toList) summary_todo]) ∧
      (InstallResolvableReportReceiver.progress
        (InstallResolvableReportReceiver.start r d).1 100 d).2.1 = [] ∧
      (InstallResolvableReportReceiver.progress
        (InstallResolvableReportReceiver.progress
          (InstallResolvableReportReceiver.start r d).1 100 d).1 45 d).2.1 =
        [.pk_backend_change_sub_percentage 40] ∧
      (InstallResolvableReportReceiver.progress
        (InstallResolvableReportReceiver.finish
          (InstallResolvableReportReceiver.progress
            (InstallResolvableReportReceiver.progress
              (InstallResolvableReportReceiver.start r d).1 100 d).1 45 d).1 d).1 v d).2.1 = [] ∧
      pk_package_id_build "vim".toList "7.1-44".toList "i586".toList "opensuse".toList =
        "vim;7.1-44;i586;opensuse".toList := by
  have h100 : guint_of_int 100 = 100 := by decide
  have h45 : guint_of_int 45 = 45 := by decide
  refine ⟨?_, ?_, ?_, ?_, by decide⟩ <;>
    simp [InstallResolvableReportReceiver.run, InstallResolvableReportReceiver.step,
      install_start_eq, InstallResolvableReportReceiver.progress,
      InstallResolvableReportReceiver.finish, update_sub_percentage, clear_package_id_eq,
      h100, h45]

/-- C8 (start callback, success path).  On the install receiver, for every prior
receiver and every resolvable, `start` makes exactly the calls
change_status (INSTALL), package (INSTALLING, id), change_sub_percentage (0) in
this order, with `id` the text `name;edition;arch;opensuse`; on the download
receiver, for every prior receiver and every URL for which
`build_package_id_from_url` returns an id, `start` makes exactly the calls
change_status (DOWNLOAD), package (DOWNLOADING, id), change_sub_percentage (0).
Afterwards the receiver holds `id` and its stored percentage is 0. -/
theorem start_success (r : ZyppBackendReceiver) (d : Resolvable) (file : Url)
    (id : List Char) (h : build_package_id_from_url file = .ok (some id)) :
    InstallResolvableReportReceiver.start r d =
        ({ _package_id := some (pk_package_id_build d.name d.edition d.arch "opensuse".toList),
           _sub_percentage := 0 },
         [.pk_backend_change_status .PK_STATUS_ENUM_INSTALL,
          .pk_backend_package .PK_INFO_ENUM_INSTALLING
            (pk_package_id_build d.name d.edition d.arch "opensuse".toList) summary_todo,
          .pk_backend_change_sub_percentage 0]) ∧
      pk_package_id_build d.name d.edition d.arch "opensuse".toList =
        d.name ++ ";".toList ++ d.edition ++ ";".toList ++ d.arch ++ ";opensuse".toList ∧
      DownloadProgressReportReceiver.start r file =
        .ok ({ _package_id := some id, _sub_percentage := 0 },
          [.pk_backend_change_status .PK_STATUS_ENUM_DOWNLOAD,
           .pk_backend_package .PK_INFO_ENUM_DOWNLOADING id summary_todo,
           .pk_backend_change_sub_percentage 0]) := by
  refine ⟨install_start_eq r d, ?_, ?_⟩
  · simp [pk_package_id_build]
  · simp [DownloadProgressReportReceiver.start, h, reset_sub_percentage, clear_package_id_eq]

/-- Witness of C8: a receiver that still holds `old;1-1;noarch;opensuse` at
percentage 70 gets `start` for the resolvable `vim` and for the URL basename
`lynx-2.8.6-63.i586.rpm`. -/
theorem start_success_witness :
    build_package_id_from_url ⟨"lynx-2.8.6-63.i586.rpm".toList⟩ =
        .ok (some "lynx;2.8.6-63;i586;opensuse".toList) ∧
      DownloadProgressReportReceiver.start
          { _package_id := some "old;1-1;noarch;opensuse".toList, _sub_percentage := 70 }
          ⟨"lynx-2.8.6-63.i586.rpm".toList⟩ =
        .ok ({ _package_id := some "lynx;2.8.6-63;i586;opensuse".toList, _sub_percentage := 0 },
          [.pk_backend_change_status .PK_STATUS_ENUM_DOWNLOAD,
           .pk_backend_package .PK_INFO_ENUM_DOWNLOADING "lynx;2.8.6-63;i586;opensuse".toList
             summary_todo,
           .pk_backend_change_sub_percentage 0]) :=
  ⟨by decide,
    (start_success
      { _package_id := some "old;1-1;noarch;opensuse".toList, _sub_percentage := 70 }
      ⟨"vim".toList, "7.1-44".toList, "i586".toList⟩ ⟨"lynx-2.8.6-63.i586.rpm".toList⟩
      "lynx;2.8.6-63;i586;opensuse".toList (by decide)).2.2⟩

/-- C9 (start callback, failure path).  For every prior download receiver and
every URL whose basename does not contain `.rpm`, `start` makes no sink call
and leaves the receiver without a package id; every sequence of `progress` and
`finish` callbacks after it makes no sink call either, and the receiver still
holds no package id. -/
theorem download_start_failure (r : ZyppBackendReceiver) (file : Url)
    (h : ¬ ".rpm".toList <:+: file.basename)
    (cs : List DownloadProgressReportReceiver.Callback) :
    DownloadProgressReportReceiver.start r file =
        .ok ({ _package_id := none, _sub_percentage := r._sub_percentage }, []) ∧
      (DownloadProgressReportReceiver.run
        { _package_id := none, _sub_percentage := r._sub_percentage } cs).2 = [] ∧
      (DownloadProgressReportReceiver.run
        { _package_id := none, _sub_percentage := r._sub_percentage } cs).1._package_id =
          none := by
  refine ⟨?_, download_run_idle cs _ rfl⟩
  simp [DownloadProgressReportReceiver.start, build_package_id_from_url_null file h,
    clear_package_id_eq]

/-- Witness of C9: a receiver that still holds `old;1-1;noarch;opensuse` gets
`start` for the basename `repomd.xml`, then `progress (50)`, `progress (100)`
and `finish`. -/
theorem download_start_failure_witness :
    ¬ (".rpm".toList <:+: "repomd.xml".toList) ∧
      DownloadProgressReportReceiver.start
          { _package_id := some "old;1-1;noarch;opensuse".toList, _sub_percentage := 70 }
          ⟨"repomd.xml".toList⟩ =
        .ok ({ _package_id := none, _sub_percentage := 70 }, []) ∧
      (DownloadProgressReportReceiver.run { _package_id := none, _sub_percentage := 70 }
        [.progress 50 ⟨"repomd.xml".toList⟩, .progress 100 ⟨"repomd.xml".toList⟩,
         .finish ⟨"repomd.xml".toList⟩]).2 = [] :=
  ⟨by decide,
    (download_start_failure
      { _package_id := some "old;1-1;noarch;opensuse".toList, _sub_percentage := 70 }
      ⟨"repomd.xml".toList⟩ (by decide)
      [.progress 50 ⟨"repomd.xml".toList⟩, .progress 100 ⟨"repomd.xml".toList⟩,
       .finish ⟨"repomd.xml".toList⟩]).1,
    (download_start_failure
      { _package_id := some "old;1-1;noarch;opensuse".toList, _sub_percentage := 70 }
      ⟨"repomd.xml".toList⟩ (by decide)
      [.progress 50 ⟨"repomd.xml".toList⟩, .progress 100 ⟨"repomd.xml".toList⟩,
       .finish ⟨"repomd.xml".toList⟩]).2.1⟩

/-- Counterexample to C10 as stated: the download receiver, holding the package
id `lynx;2.8.6-63;i586;opensuse`, makes no sink call on `finish`. -/
theorem download_finish_silent :
    (DownloadProgressReportReceiver.finish
        { _package_id := some "lynx;2.8.6-63;i586;opensuse".toList, _sub_percentage := 40 }
        ⟨"lynx-2.8.6-63.i586.rpm".toList⟩).2 = [] ∧
      (DownloadProgressReportReceiver.finish
        { _package_id := some "lynx;2.8.6-63;i586;opensuse".toList, _sub_percentage := 40 }
        ⟨"lynx-2.8.6-63.i586.rpm".toList⟩).2.length ≠ 1 := by
  decide

/-- C10, amended.  A `finish` callback received while the receiver holds a
package id: on the install receiver it makes exactly one sink call,
package (INSTALLED, held id), and on the download receiver it makes no sink
call; on both, the receiver holds no package id afterwards and its stored
percentage is unchanged. -/
theorem finish_active (r : ZyppBackendReceiver) (id : List Char)
    (h : r._package_id = some id) (d : Resolvable) (file : Url) :
    InstallResolvableReportReceiver.finish r d =
        ({ _package_id := none, _sub_percentage := r._sub_percentage },
         [.pk_backend_package .PK_INFO_ENUM_INSTALLED id summary_todo]) ∧
      DownloadProgressReportReceiver.finish r file =
        ({ _package_id := none, _sub_percentage := r._sub_percentage }, []) := by
  simp [InstallResolvableReportReceiver.finish, DownloadProgressReportReceiver.finish, h,
    clear_package_id_eq]

/-- Witness of C10 (amended) at a receiver holding `vim;7.1-44;i586;opensuse`. -/
theorem finish_active_witness :
    InstallResolvableReportReceiver.finish
        { _package_id := some "vim;7.1-44;i586;opensuse".toList, _sub_percentage := 40 }
        ⟨"vim".toList, "7.1-44".toList, "i586".toList⟩ =
      ({ _package_id := none, _sub_percentage := 40 },
       [.pk_backend_package .PK_INFO_ENUM_INSTALLED "vim;7.1-44;i586;opensuse".toList
          summary_todo]) :=
  (finish_active
    { _package_id := some "vim;7.1-44;i586;opensuse".toList, _sub_percentage := 40 }
    "vim;7.1-44;i586;opensuse".toList rfl
    ⟨"vim".toList, "7.1-44".toList, "i586".toList⟩ ⟨"vim-7.1-44.i586.rpm".toList⟩).1

/-! ## Parsing a basename -/

/-- A string without NUL is read back whole up to the NUL that follows it. -/
theorem cstr_of_not_mem (s rest : List Char) (h : NUL ∉ s) : cstr (s ++ NUL :: rest) = s := by
  unfold cstr
  induction s with
  | nil => simp
  | cons c cs ih =>
    have hc : c ≠ NUL := fun e => h (e ▸ List.mem_cons_self _ _)
    have hcs : NUL ∉ cs := fun e => h (List.mem_cons_of_mem _ e)
    simp [List.takeWhile_cons, hc, ih hcs]

/-- A string without NUL has no character cut off. -/
theorem cstr_self_of_not_mem (s : List Char) (h : NUL ∉ s) : cstr s = s := by
  unfold cstr
  rw [List.takeWhile_eq_self_iff]
  intro c hc
  have : c ≠ NUL := fun e => h (e ▸ hc)
  simpa using this

/-- Reading the C string at the cell that follows `a`. -/
theorem cstrAt_split (buf a s rest : List Char) (i : Nat) (hbuf : buf = a ++ (s ++ NUL :: rest))
    (hi : i = a.length) (hs : NUL ∉ s) : cstrAt buf i = s := by
  subst hbuf hi
  unfold cstrAt
  rw [List.drop_left]
  exact cstr_of_not_mem s rest hs

/-- Writing the cell that follows `a`. -/
theorem set_split (a rest : List Char) (c x : Char) :
    (a ++ c :: rest).set a.length x = a ++ x :: rest := by
  induction a with
  | nil => rfl
  | cons y ys ih => simp [ih]

/-- Reading the cell that follows `a`. -/
theorem getD_split (a rest : List Char) (c d : Char) :
    (a ++ c :: rest).getD a.length d = c := by
  induction a with
  | nil => rfl
  | cons y ys ih => simpa using ih

/-- A cell further right, within `mid`, holds a character of `mid`. -/
theorem getD_split_mid (a mid rest : List Char) (c d : Char) (k : Nat) (hk : k < mid.length) :
    (a ++ c :: (mid ++ rest)).getD (a.length + (k + 1)) d ∈ mid := by
  induction a with
  | nil =>
    simp only [List.nil_append, List.length_nil, Nat.zero_add, List.getD_cons_succ]
    rw [List.getD_append _ _ _ _ hk, List.getD_eq_getElem _ _ hk]
    exact List.getElem_mem _
  | cons y ys ih =>
    have e : (y :: ys).length + (k + 1) = (ys.length + (k + 1)) + 1 := by simp; omega
    rw [e]
    simpa using ih


/-- The architecture loop, started on or right of a dot with no dot in
between, stops on that dot. -/
theorem arch_scan_stop (a mid rest : List Char) (ha : a ≠ []) (hmid : '.' ∉ mid) :
    ∀ k, k ≤ mid.length → arch_scan (a ++ '.' :: (mid ++ rest)) (a.length + k) = a.length := by
  intro k
  induction k with
  | zero =>
    intro _
    obtain ⟨l, hl⟩ := Nat.exists_eq_add_one_of_ne_zero (fun h => ha (List.length_eq_zero.mp h))
    have hg := getD_split a (mid ++ rest) '.' NUL
    rw [hl] at hg
    rw [Nat.add_zero, hl]
    simp only [arch_scan, hg]
    simp
  | succ k ih =>
    intro hk
    have hm := getD_split_mid a mid rest '.' NUL k (by omega)
    have hne : (a ++ '.' :: (mid ++ rest)).getD (a.length + (k + 1)) NUL ≠ '.' :=
      fun e => hmid (e ▸ hm)
    have e : a.length + (k + 1) = (a.length + k) + 1 := rfl
    rw [e] at hne ⊢
    simp only [arch_scan, bne_iff_ne, ne_eq, hne, not_false_eq_true, if_true]
    exact ih (by omega)

/-- The edition loop, after the first dash, stops on the next dash to the
left. -/
theorem edition_scan_second (a mid rest : List Char) (ha : a ≠ []) (hmid : '-' ∉ mid) :
    ∀ k, k ≤ mid.length →
      edition_scan (a ++ '-' :: (mid ++ rest)) (a.length + k) true = a.length := by
  intro k
  induction k with
  | zero =>
    intro _
    obtain ⟨l, hl⟩ := Nat.exists_eq_add_one_of_ne_zero (fun h => ha (List.length_eq_zero.mp h))
    have hg := getD_split a (mid ++ rest) '-' NUL
    rw [hl] at hg
    rw [Nat.add_zero, hl]
    simp only [edition_scan, hg]
    simp
  | succ k ih =>
    intro hk
    have hm := getD_split_mid a mid rest '-' NUL k (by omega)
    have hne : (a ++ '-' :: (mid ++ rest)).getD (a.length + (k + 1)) NUL ≠ '-' :=
      fun e => hmid (e ▸ hm)
    have e : a.length + (k + 1) = (a.length + k) + 1 := rfl
    rw [e] at hne ⊢
    simp only [edition_scan, beq_iff_eq, hne, if_false]
    exact ih (by omega)

/-- The edition loop steps over the first dash it meets and goes on with
`first_dash_found` set. -/
theorem edition_scan_first (x mid rest : List Char) (hx : x ≠ []) (hmid : '-' ∉ mid) :
    ∀ k, k ≤ mid.length →
      edition_scan (x ++ '-' :: (mid ++ rest)) (x.length + k) false =
        edition_scan (x ++ '-' :: (mid ++ rest)) (x.length - 1) true := by
  intro k
  induction k with
  | zero =>
    intro _
    obtain ⟨l, hl⟩ := Nat.exists_eq_add_one_of_ne_zero (fun h => hx (List.length_eq_zero.mp h))
    have hg := getD_split x (mid ++ rest) '-' NUL
    rw [hl] at hg
    rw [Nat.add_zero, hl]
    simp only [edition_scan, hg]
    simp
  | succ k ih =>
    intro hk
    have hm := getD_split_mid x mid rest '-' NUL k (by omega)
    have hne : (x ++ '-' :: (mid ++ rest)).getD (x.length + (k + 1)) NUL ≠ '-' :=
      fun e => hmid (e ▸ hm)
    have e : x.length + (k + 1) = (x.length + k) + 1 := rfl
    rw [e] at hne ⊢
    simp only [edition_scan, beq_iff_eq, hne, if_false]
    exact ih (by omega)

/-- The backward scan started where the needle ends the haystack stops at
once. -/
theorem g_strrstr_scan_end (pre needle : List Char) :
    g_strrstr_scan (pre ++ needle) needle pre.length = some pre.length := by
  have h : needle.isPrefixOf ((pre ++ needle).drop pre.length) = true := by
    rw [List.drop_left, List.isPrefixOf_iff_prefix]
  cases hl : pre.length with
  | zero =>
    rw [hl] at h
    simp only [List.drop_zero] at h
    simp [g_strrstr_scan, h]
  | succ p =>
    rw [hl] at h
    simp [g_strrstr_scan, h]

/-- `g_strrstr` on the copy of a basename that ends in `.rpm`, when nothing
before the suffix is a NUL, points at that suffix. -/
theorem g_strrstr_at_end (pre : List Char) (h : NUL ∉ pre) :
    g_strrstr (g_strdup (pre ++ ".rpm".toList)) ".rpm".toList = some pre.length := by
  have hn : NUL ∉ pre ++ ".rpm".toList := by
    intro hm
    rcases List.mem_append.mp hm with h1 | h1
    · exact h h1
    · revert h1; decide
  unfold g_strrstr
  simp only [cstr_g_strdup, cstr_rpm, cstr_self_of_not_mem _ hn]
  have := g_strrstr_scan_end pre ['.', 'r', 'p', 'm']
  simpa using this


/-- The copy of a string without NUL. -/
theorem g_strdup_of_not_mem (s : List Char) (h : NUL ∉ s) : g_strdup s = s ++ [NUL] := by
  unfold g_strdup
  rw [cstr_self_of_not_mem s h]

/-- The parse of `name-version-release.arch.rpm`: the three writes of NUL fall
on the dot of `.rpm`, the dot before `arch` and the dash before `version`. -/
theorem parse_archive (name version release arch : List Char)
    (hname : name ≠ []) (hversion : '-' ∉ version) (hrelease : '-' ∉ release)
    (harch : '.' ∉ arch)
    (nname : NUL ∉ name) (nversion : NUL ∉ version) (nrelease : NUL ∉ release)
    (narch : NUL ∉ arch) :
    build_package_id_from_url
        ⟨name ++ '-' :: (version ++ '-' :: (release ++ '.' :: (arch ++ ".rpm".toList)))⟩ =
      .ok (some (pk_package_id_build name (version ++ '-' :: release) arch
        "opensuse".toList)) := by
  have hd : NUL ≠ '-' := by decide
  have hp : NUL ≠ '.' := by decide
  -- the part in front of the dot of the architecture
  obtain ⟨front, hfront⟩ : ∃ f, f = name ++ '-' :: (version ++ '-' :: release) := ⟨_, rfl⟩
  have nfront : NUL ∉ front := by
    subst hfront
    simp [nname, nversion, nrelease, hd]
  have hfront_ne : front ≠ [] := by subst hfront; simp
  have hpre : NUL ∉ front ++ '.' :: arch := by simp [nfront, narch, hp]
  have hb : name ++ '-' :: (version ++ '-' :: (release ++ '.' :: (arch ++ ".rpm".toList))) =
      (front ++ '.' :: arch) ++ ".rpm".toList := by subst hfront; simp
  have hn : NUL ∉ (front ++ '.' :: arch) ++ ".rpm".toList := by
    intro hm
    rcases List.mem_append.mp hm with h1 | h1
    · exact hpre h1
    · revert h1; decide
  obtain ⟨fl, hfl⟩ : ∃ fl, front.length = fl + 1 :=
    Nat.exists_eq_add_one_of_ne_zero (fun h => hfront_ne (List.length_eq_zero.mp h))
  obtain ⟨nl, hnl⟩ : ∃ nl, name.length = nl + 1 :=
    Nat.exists_eq_add_one_of_ne_zero (fun h => hname (List.length_eq_zero.mp h))
  have hlen : (front ++ '.' :: arch).length = (fl + 1 + arch.length) + 1 := by
    simp; omega
  -- the three writes
  have w1 : ((front ++ '.' :: arch) ++ ".rpm".toList ++ [NUL]).set (fl + 1 + arch.length + 1) NUL =
      front ++ '.' :: (arch ++ NUL :: ['r', 'p', 'm', NUL]) := by
    have h := set_split (front ++ '.' :: arch) ['r', 'p', 'm', NUL] '.' NUL
    rw [hlen] at h
    simpa using h
  have s1 : arch_scan (front ++ '.' :: (arch ++ NUL :: ['r', 'p', 'm', NUL])) (fl + 1 + arch.length) =
      fl + 1 := by
    have h := arch_scan_stop front arch (NUL :: ['r', 'p', 'm', NUL]) hfront_ne harch
      arch.length le_rfl
    rw [hfl] at h
    exact h
  have w2 : (front ++ '.' :: (arch ++ NUL :: ['r', 'p', 'm', NUL])).set (fl + 1) NUL =
      front ++ NUL :: (arch ++ NUL :: ['r', 'p', 'm', NUL]) := by
    rw [← hfl]
    exact set_split _ _ _ _
  have hfl2 : fl = (name ++ '-' :: version).length + release.length := by
    have h := hfl
    rw [hfront] at h
    simp only [List.length_append, List.length_cons] at h ⊢
    omega
  have b2 : front ++ NUL :: (arch ++ [NUL, 'r', 'p', 'm', NUL]) =
      (name ++ '-' :: version) ++
        '-' :: (release ++ NUL :: (arch ++ [NUL, 'r', 'p', 'm', NUL])) := by
    rw [hfront]; simp
  have b2' : front ++ NUL :: (arch ++ [NUL, 'r', 'p', 'm', NUL]) =
      name ++ '-' :: (version ++
        '-' :: (release ++ NUL :: (arch ++ [NUL, 'r', 'p', 'm', NUL]))) := by
    rw [hfront]; simp
  have s2 : edition_scan (front ++ NUL :: (arch ++ [NUL, 'r', 'p', 'm', NUL])) fl false =
      nl + 1 := by
    have h := edition_scan_first (name ++ '-' :: version) release
      (NUL :: (arch ++ [NUL, 'r', 'p', 'm', NUL])) (by simp) hrelease release.length le_rfl
    rw [← b2, ← hfl2] at h
    rw [h, b2']
    have h' := edition_scan_second name version
      ('-' :: (release ++ NUL :: (arch ++ [NUL, 'r', 'p', 'm', NUL]))) hname hversion
      version.length le_rfl
    have e : (name ++ '-' :: version).length - 1 = name.length + version.length := by
      simp only [List.length_append, List.length_cons]; omega
    rw [e, ← hnl]
    simpa using h'
  have w3 : (front ++ NUL :: (arch ++ [NUL, 'r', 'p', 'm', NUL])).set (nl + 1) NUL =
      name ++ NUL :: (version ++
        '-' :: (release ++ NUL :: (arch ++ [NUL, 'r', 'p', 'm', NUL]))) := by
    rw [b2', ← hnl]
    exact set_split _ _ _ _
  have r1 : cstrAt (name ++ NUL :: (version ++
        '-' :: (release ++ NUL :: (arch ++ [NUL, 'r', 'p', 'm', NUL])))) 0 = name :=
    cstrAt_split _ [] name
      (version ++ '-' :: (release ++ NUL :: (arch ++ [NUL, 'r', 'p', 'm', NUL]))) 0 (by simp) rfl
      nname
  have r2 : cstrAt (name ++ NUL :: (version ++
        '-' :: (release ++ NUL :: (arch ++ [NUL, 'r', 'p', 'm', NUL])))) (nl + 1 + 1) =
      version ++ '-' :: release :=
    cstrAt_split _ (name ++ [NUL]) (version ++ '-' :: release) (arch ++ [NUL, 'r', 'p', 'm', NUL])
      _ (by simp) (by simp [hnl]) (by simp [nversion, nrelease, hd])
  have r3 : cstrAt (name ++ NUL :: (version ++
        '-' :: (release ++ NUL :: (arch ++ [NUL, 'r', 'p', 'm', NUL])))) (fl + 1 + 1) = arch :=
    cstrAt_split _ (name ++ NUL :: (version ++ '-' :: (release ++ [NUL]))) arch ['r', 'p', 'm', NUL]
      _ (by simp) (by rw [← hfl, hfront]; simp only [List.length_append, List.length_cons,
        List.length_nil]; omega) narch
  unfold build_package_id_from_url
  simp only [hb]
  rw [g_strrstr_at_end _ hpre]
  simp only [g_strdup_of_not_mem _ hn, hlen, w1, s1, w2, s2, w3, r1, r2, r3]

/-- C1 (archive basenames).  For every non-empty `name`, every `version` and
`release` without `-` and every `arch` without `.` (all four C strings, so
without NUL), `build_package_id_from_url` on a URL whose basename is
`name-version-release.arch.rpm` returns the package id built from the fields
`name`, `version-release`, `arch` and `opensuse`, whose text is
`name;version-release;arch;opensuse`. -/
theorem build_package_id_from_url_archive (name version release arch : List Char)
    (hname : name ≠ []) (hversion : '-' ∉ version) (hrelease : '-' ∉ release)
    (harch : '.' ∉ arch)
    (nname : NUL ∉ name) (nversion : NUL ∉ version) (nrelease : NUL ∉ release)
    (narch : NUL ∉ arch) :
    build_package_id_from_url
        ⟨name ++ "-".toList ++ version ++ "-".toList ++ release ++ ".".toList ++ arch ++
          ".rpm".toList⟩ =
      .ok (some (pk_package_id_build name (version ++ "-".toList ++ release) arch
        "opensuse".toList)) ∧
    pk_package_id_build name (version ++ "-".toList ++ release) arch "opensuse".toList =
      name ++ ";".toList ++ version ++ "-".toList ++ release ++ ";".toList ++ arch ++
        ";opensuse".toList := by
  have e1 : "-".toList = ['-'] := rfl
  have e2 : ".".toList = ['.'] := rfl
  have e3 : ";".toList = [';'] := rfl
  have e4 : ";opensuse".toList = ';' :: "opensuse".toList := rfl
  have h := parse_archive name version release arch hname hversion hrelease harch nname
    nversion nrelease narch
  refine ⟨?_, ?_⟩
  · rw [e1, e2]
    simpa using h
  · rw [e1, e3, e4]
    simp [pk_package_id_build]

/-- Witness of C1: the basename `lynx-2.8.6-63.i586.rpm` gives
`lynx;2.8.6-63;i586;opensuse`. -/
theorem build_package_id_from_url_archive_witness :
    ("lynx".toList ≠ [] ∧ '-' ∉ "2.8.6".toList ∧ '-' ∉ "63".toList ∧ '.' ∉ "i586".toList) ∧
      "lynx".toList ++ "-".toList ++ "2.8.6".toList ++ "-".toList ++ "63".toList ++
          ".".toList ++ "i586".toList ++ ".rpm".toList = "lynx-2.8.6-63.i586.rpm".toList ∧
      build_package_id_from_url
          ⟨"lynx".toList ++ "-".toList ++ "2.8.6".toList ++ "-".toList ++ "63".toList ++
            ".".toList ++ "i586".toList ++ ".rpm".toList⟩ =
        .ok (some (pk_package_id_build "lynx".toList ("2.8.6".toList ++ "-".toList ++ "63".toList)
          "i586".toList "opensuse".toList)) ∧
      pk_package_id_build "lynx".toList ("2.8.6".toList ++ "-".toList ++ "63".toList)
          "i586".toList "opensuse".toList = "lynx;2.8.6-63;i586;opensuse".toList :=
  ⟨by decide, by decide,
    (build_package_id_from_url_archive "lynx".toList "2.8.6".toList "63".toList "i586".toList
      (by decide) (by decide) (by decide) (by decide) (by decide) (by decide) (by decide)
      (by decide)).1,
    by decide⟩

/-! ## Subjects, `problem` and the returned `bool` -/

/-- Counterexample to C11 as stated: the install receiver holds
`vim;7.1-44;i586;opensuse` at percentage 0 and gets `progress (50)` and
`finish` for the resolvable `lynx`, whose id is `lynx;2.8.6-63;i586;opensuse`.
Neither callback is ignored: `progress` sends 50 and stores it, `finish` sends
package (INSTALLED, `vim;7.1-44;i586;opensuse`) and clears the id. -/
theorem subject_not_matched :
    build_package_id_from_resolvable ⟨"lynx".toList, "2.8.6-63".toList, "i586".toList⟩ ≠
        some "vim;7.1-44;i586;opensuse".toList ∧
      InstallResolvableReportReceiver.progress
          { _package_id := some "vim;7.1-44;i586;opensuse".toList, _sub_percentage := 0 } 50
          ⟨"lynx".toList, "2.8.6-63".toList, "i586".toList⟩ =
        ({ _package_id := some "vim;7.1-44;i586;opensuse".toList, _sub_percentage := 50 },
         [.pk_backend_change_sub_percentage 50], true) ∧
      InstallResolvableReportReceiver.finish
          { _package_id := some "vim;7.1-44;i586;opensuse".toList, _sub_percentage := 0 }
          ⟨"lynx".toList, "2.8.6-63".toList, "i586".toList⟩ =
        ({ _package_id := none, _sub_percentage := 0 },
         [.pk_backend_package .PK_INFO_ENUM_INSTALLED "vim;7.1-44;i586;opensuse".toList
            summary_todo]) := by
  decide

/-- C11, amended.  The `progress` and `finish` callbacks do not look at their
subject.  For every receiver that holds a package id and every subject,
matching or not: `progress` passes the value to `update_sub_percentage`, on
the install and on the download receiver; `finish` on the install receiver
sends package (INSTALLED, held id) and clears the id; `finish` on the download
receiver clears the id; and the result is the same for any two subjects. -/
theorem subject_not_read (r : ZyppBackendReceiver) (id : List Char)
    (hid : r._package_id = some id) (value : Int) (d d' : Resolvable) (file file' : Url) :
    InstallResolvableReportReceiver.progress r value d =
        ((update_sub_percentage r (guint_of_int value)).1,
         (update_sub_percentage r (guint_of_int value)).2, true) ∧
      DownloadProgressReportReceiver.progress r value file =
        ((update_sub_percentage r (guint_of_int value)).1,
         (update_sub_percentage r (guint_of_int value)).2, true) ∧
      InstallResolvableReportReceiver.finish r d =
        ({ _package_id := none, _sub_percentage := r._sub_percentage },
         [.pk_backend_package .PK_INFO_ENUM_INSTALLED id summary_todo]) ∧
      DownloadProgressReportReceiver.finish r file =
        ({ _package_id := none, _sub_percentage := r._sub_percentage }, []) ∧
      InstallResolvableReportReceiver.progress r value d =
        InstallResolvableReportReceiver.progress r value d' ∧
      InstallResolvableReportReceiver.finish r d = InstallResolvableReportReceiver.finish r d' ∧
      DownloadProgressReportReceiver.progress r value file =
        DownloadProgressReportReceiver.progress r value file' ∧
      DownloadProgressReportReceiver.finish r file =
        DownloadProgressReportReceiver.finish r file' := by
  refine ⟨?_, ?_, ?_, ?_, rfl, rfl, rfl, rfl⟩
  · simp [InstallResolvableReportReceiver.progress, hid]
  · simp [DownloadProgressReportReceiver.progress, hid]
  · simp [InstallResolvableReportReceiver.finish, hid, clear_package_id_eq]
  · simp [DownloadProgressReportReceiver.finish, clear_package_id_eq]

/-- Witness of C11 (amended): the download receiver holds
`vim;7.1-44;i586;opensuse` at percentage 20 and gets `progress (57)` for the
URL basename `lynx-2.8.6-63.i586.rpm`. -/
theorem subject_not_read_witness :
    DownloadProgressReportReceiver.progress
        { _package_id := some "vim;7.1-44;i586;opensuse".toList, _sub_percentage := 20 } 57
        ⟨"lynx-2.8.6-63.i586.rpm".toList⟩ =
      ((update_sub_percentage
          { _package_id := some "vim;7.1-44;i586;opensuse".toList, _sub_percentage := 20 }
          (guint_of_int 57)).1,
       (update_sub_percentage
          { _package_id := some "vim;7.1-44;i586;opensuse".toList, _sub_percentage := 20 }
          (guint_of_int 57)).2, true) :=
  (subject_not_read
    { _package_id := some "vim;7.1-44;i586;opensuse".toList, _sub_percentage := 20 }
    "vim;7.1-44;i586;opensuse".toList rfl 57
    ⟨"lynx".toList, "2.8.6-63".toList, "i586".toList⟩
    ⟨"vim".toList, "7.1-44".toList, "i586".toList⟩
    ⟨"lynx-2.8.6-63.i586.rpm".toList⟩ ⟨"vim-7.1-44.i586.rpm".toList⟩).2.1

/-- C13 (problem callback policy).  For every install receiver and every
resolvable, error, description and level, `problem` returns ABORT, makes no
sink call and leaves the receiver as it is; so does a `problem` callback taken
as one step of a run. -/
theorem problem_aborts (r : ZyppBackendReceiver) (resolvable : Resolvable) (error : Nat)
    (description : List Char) (level : Nat) :
    (InstallResolvableReportReceiver.problem r resolvable error description level).2.2 =
        .ABORT ∧
      (InstallResolvableReportReceiver.problem r resolvable error description level).2.1 = [] ∧
      (InstallResolvableReportReceiver.problem r resolvable error description level).1 = r ∧
      InstallResolvableReportReceiver.step r (.problem resolvable error description level) =
        (r, []) :=
  ⟨rfl, rfl, rfl, rfl⟩

/-- C14 (progress never asks to abort).  On each of the four receivers, for
every receiver state, progress value and subject, `progress` returns
`true`. -/
theorem progress_returns_true (r : ZyppBackendReceiver) (value : Int) (resolvable : Resolvable)
    (file : Url) (data : ProgressData) :
    (InstallResolvableReportReceiver.progress r value resolvable).2.2 = true ∧
      (DownloadProgressReportReceiver.progress r value file).2.2 = true ∧
      (RepoProgressReportReceiver.progress r data).2.2 = true ∧
      (RepoReportReceiver.progress r data).2.2 = true := by
  refine ⟨?_, ?_, rfl, rfl⟩
  · unfold InstallResolvableReportReceiver.progress
    split <;> rfl
  · unfold DownloadProgressReportReceiver.progress
    split <;> rfl

/-! ## `EventDirector` -/

/-- Counterexample to C15 as stated: the members the destructor disconnects,
in order, are not the reverse of the members the constructor connected. -/
theorem destructor_order_not_reversed :
    (EventDirector.destructor EventDirector.constructor.1).2.map ReportCall.member ≠
      (EventDirector.constructor.2.map ReportCall.member).reverse := by
  decide

/-- C15, amended.  The constructor connects `_repoReport`,
`_repoProgressReport`, `_installResolvableReport`, `_downloadProgressReport`
in this order, and the destructor, whatever the state of the director,
disconnects the four members in the same order: the sequence of members
disconnected equals the sequence of members connected. -/
theorem destructor_order (d : EventDirector) :
    EventDirector.constructor.2 =
        [.connect ._repoReport, .connect ._repoProgressReport,
         .connect ._installResolvableReport, .connect ._downloadProgressReport] ∧
      (EventDirector.destructor d).2 =
        [.disconnect ._repoReport, .disconnect ._repoProgressReport,
         .disconnect ._installResolvableReport, .disconnect ._downloadProgressReport] ∧
      (EventDirector.destructor d).2.map ReportCall.member =
        EventDirector.constructor.2.map ReportCall.member :=
  ⟨rfl, rfl, rfl⟩

/-! ## Range and number of the values sent -/

/-- The values of a trace made of two parts. -/
theorem sub_percentages_append (a b : List SinkCall) :
    sub_percentages (a ++ b) = sub_percentages a ++ sub_percentages b := by
  induction a with
  | nil => rfl
  | cons c cs ih => cases c <;> simp [sub_percentages, ih]

/-- One update with a raw value of at most 100 keeps the stored value a
multiple of ten of at most 100, and sends only such values. -/
theorem update_sub_percentage_range (r : ZyppBackendReceiver) (raw : Nat)
    (hdiv : 10 ∣ r._sub_percentage) (hle : r._sub_percentage ≤ 100) (hraw : raw ≤ 100) :
    10 ∣ (update_sub_percentage r raw).1._sub_percentage ∧
      (update_sub_percentage r raw).1._sub_percentage ≤ 100 ∧
      ∀ v ∈ sub_percentages (update_sub_percentage r raw).2, 10 ∣ v ∧ v ≤ 100 := by
  rcases update_sub_percentage_cases r raw with ⟨h, _⟩ | ⟨_, _, h⟩
  · rw [h]
    exact ⟨hdiv, hle, by simp [sub_percentages]⟩
  · rw [h]
    have h1 : 10 ∣ raw / 10 * 10 := Dvd.intro_left _ rfl
    have h2 : raw / 10 * 10 ≤ 100 := by omega
    refine ⟨h1, h2, ?_⟩
    intro v hv
    simp only [sub_percentages, List.mem_singleton] at hv
    subst hv
    exact ⟨h1, h2⟩

/-- Resets and updates with raw values of at most 100 keep the stored value a
multiple of ten of at most 100, and send only such values. -/
theorem calls_range (cs : List SubPercentageCall) :
    ∀ r : ZyppBackendReceiver, 10 ∣ r._sub_percentage → r._sub_percentage ≤ 100 →
      (∀ c ∈ cs, ∀ p, c.raw = some p → p ≤ 100) →
      10 ∣ (calls r cs).1._sub_percentage ∧ (calls r cs).1._sub_percentage ≤ 100 ∧
      ∀ v ∈ sub_percentages (calls r cs).2, 10 ∣ v ∧ v ≤ 100 := by
  induction cs with
  | nil =>
    intro r hdiv hle _
    exact ⟨hdiv, hle, by simp [calls, sub_percentages]⟩
  | cons c cs ih =>
    intro r hdiv hle hraw
    have hrest : ∀ c' ∈ cs, ∀ p, c'.raw = some p → p ≤ 100 :=
      fun c' hc' => hraw c' (List.mem_cons_of_mem _ hc')
    cases c with
    | reset_sub_percentage =>
      have h := ih (reset_sub_percentage r).1 (by simp [reset_sub_percentage])
        (by simp [reset_sub_percentage]) hrest
      refine ⟨h.1, h.2.1, ?_⟩
      intro v hv
      simp only [calls, sub_percentages_append, List.mem_append] at hv
      rcases hv with hv | hv
      · simp only [reset_sub_percentage, sub_percentages, List.mem_singleton] at hv
        subst hv
        exact ⟨dvd_zero 10, Nat.zero_le _⟩
      · exact h.2.2 v hv
    | update_sub_percentage p =>
      have hp : p ≤ 100 := hraw _ (List.mem_cons_self _ _) p rfl
      have h1 := update_sub_percentage_range r p hdiv hle hp
      have h := ih (update_sub_percentage r p).1 h1.1 h1.2.1 hrest
      refine ⟨h.1, h.2.1, ?_⟩
      intro v hv
      simp only [calls, sub_percentages_append, List.mem_append] at hv
      rcases hv with hv | hv
      · exact h1.2.2 v hv
      · exact h.2.2 v hv

/-- C17 (progress-state invariant).  Starting from `initWithBackend`, after every
sequence of `reset_sub_percentage` and `update_sub_percentage` calls whose raw
values are at most 100, the stored `_sub_percentage` is a multiple of 10
between 0 and 100, and every value sent to the sink by
`pk_backend_change_sub_percentage` is a multiple of 10 between 0 and 100. -/
theorem sub_percentage_invariant (cs : List SubPercentageCall)
    (hraw : ∀ c ∈ cs, ∀ p, c.raw = some p → p ≤ 100) :
    initWithBackend._sub_percentage = 0 ∧
      10 ∣ (calls initWithBackend cs).1._sub_percentage ∧
      0 ≤ (calls initWithBackend cs).1._sub_percentage ∧
      (calls initWithBackend cs).1._sub_percentage ≤ 100 ∧
      ∀ v ∈ sub_percentages (calls initWithBackend cs).2, 10 ∣ v ∧ 0 ≤ v ∧ v ≤ 100 := by
  have h := calls_range cs initWithBackend (dvd_zero 10) (Nat.zero_le _) hraw
  exact ⟨rfl, h.1, Nat.zero_le _, h.2.1,
    fun v hv => ⟨(h.2.2 v hv).1, Nat.zero_le _, (h.2.2 v hv).2⟩⟩

/-- Witness of C17: the calls update (100), update (57), update (99), reset,
update (34) leave 30 stored and send 50, 90, 0, 30. -/
theorem sub_percentage_invariant_witness :
    (∀ c ∈ [SubPercentageCall.update_sub_percentage 100, .update_sub_percentage 57,
        .update_sub_percentage 99, .reset_sub_percentage, .update_sub_percentage 34],
        ∀ p, c.raw = some p → p ≤ 100) ∧
      sub_percentages (calls initWithBackend
        [.update_sub_percentage 100, .update_sub_percentage 57, .update_sub_percentage 99,
         .reset_sub_percentage, .update_sub_percentage 34]).2 = [50, 90, 0, 30] ∧
      (calls initWithBackend
        [.update_sub_percentage 100, .update_sub_percentage 57, .update_sub_percentage 99,
         .reset_sub_percentage, .update_sub_percentage 34]).1._sub_percentage = 30 ∧
      10 ∣ (calls initWithBackend
        [.update_sub_percentage 100, .update_sub_percentage 57, .update_sub_percentage 99,
         .reset_sub_percentage, .update_sub_percentage 34]).1._sub_percentage :=
  ⟨by decide, by decide, by decide,
    (sub_percentage_invariant
      [.update_sub_percentage 100, .update_sub_percentage 57, .update_sub_percentage 99,
       .reset_sub_percentage, .update_sub_percentage 34] (by decide)).2.1⟩

/-- While the stored value is 0, raw values below 10 and the raw value 100
send nothing and leave the receiver as it is. -/
theorem feed_stays_zero (raws : List Nat) (r : ZyppBackendReceiver)
    (h0 : r._sub_percentage = 0) (hraws : ∀ raw ∈ raws, raw < 10 ∨ raw = 100) :
    feed r raws = (r, []) := by
  induction raws with
  | nil => rfl
  | cons p ps ih =>
    have hp := hraws p (List.mem_cons_self _ _)
    have hstep : update_sub_percentage r p = (r, []) := by
      rcases update_sub_percentage_cases r p with ⟨h, _⟩ | ⟨hlt, hspike, _⟩
      · exact h
      · rcases hp with hp | hp
        · omega
        · exact absurd ⟨h0, hp⟩ hspike
    have hrest := ih (fun raw hraw => hraws raw (List.mem_cons_of_mem _ hraw))
    simp [feed, hstep, hrest]

/-- Counterexample to C18 as stated: after a reset the single raw value 101
sends 100 to the sink, and no raw value between 10 and 99 came before it.  The
install receiver passes such a value on: after `start`, `progress (101)` sends
100. -/
theorem completion_reported_after_raw_101 :
    (feed (reset_sub_percentage initWithBackend).1 [101]).2 =
        [.pk_backend_change_sub_percentage 100] ∧
      (∀ raw ∈ [101], ¬ (10 ≤ raw ∧ raw ≤ 99)) ∧
      SinkCall.pk_backend_change_sub_percentage 100 ∈
        (update_sub_percentage (feed (reset_sub_percentage initWithBackend).1 []).1 101).2 ∧
      ¬ (∃ raw ∈ ([] : List Nat), 10 ≤ raw ∧ raw ≤ 99) ∧
      (InstallResolvableReportReceiver.progress
        (InstallResolvableReportReceiver.start initWithBackend
          ⟨"vim".toList, "7.1-44".toList, "i586".toList⟩).1 101
        ⟨"vim".toList, "7.1-44".toList, "i586".toList⟩).2.1 =
        [.pk_backend_change_sub_percentage 100] := by
  decide

/-- C18, amended.  For every receiver whose stored value is a multiple of ten of
at most 100, `update_sub_percentage (100)` makes a sink call, and then exactly
the call sending 100, if and only if the stored value is between 10 and 90.
After a reset, with raw values of at most 100, an update sends 100 only if
some raw value between 10 and 99 came before it.  The raw values 5, 100, 100
after a reset send nothing. -/
theorem completion_swallowed (r : ZyppBackendReceiver) (hdiv : 10 ∣ r._sub_percentage)
    (hle : r._sub_percentage ≤ 100) (r0 : ZyppBackendReceiver) (before : List Nat) (x : Nat)
    (hbefore : ∀ raw ∈ before, raw ≤ 100) (hx : x ≤ 100) :
    ((update_sub_percentage r 100).2 ≠ [] ↔
        10 ≤ r._sub_percentage ∧ r._sub_percentage ≤ 90) ∧
      ((update_sub_percentage r 100).2 = [.pk_backend_change_sub_percentage 100] ↔
        10 ≤ r._sub_percentage ∧ r._sub_percentage ≤ 90) ∧
      (SinkCall.pk_backend_change_sub_percentage 100 ∈
          (update_sub_percentage (feed (reset_sub_percentage r0).1 before).1 x).2 →
        ∃ raw ∈ before, 10 ≤ raw ∧ raw ≤ 99) ∧
      (feed (reset_sub_percentage r0).1 [5, 100, 100]).2 = [] := by
  have hiff : (update_sub_percentage r 100).2 = [.pk_backend_change_sub_percentage 100] ↔
      10 ≤ r._sub_percentage ∧ r._sub_percentage ≤ 90 := by
    rcases update_sub_percentage_cases r 100 with ⟨h, hc⟩ | ⟨hlt, hspike, h⟩
    · rw [h]
      constructor
      · intro hemp; simp at hemp
      · intro hr
        rcases hc with hc | hc <;> omega
    · rw [h]
      constructor
      · intro _
        obtain ⟨k, hk⟩ := hdiv
        have : r._sub_percentage ≠ 0 := fun h0 => hspike ⟨h0, rfl⟩
        omega
      · intro _; rfl
  have hne : (update_sub_percentage r 100).2 ≠ [] ↔
      10 ≤ r._sub_percentage ∧ r._sub_percentage ≤ 90 := by
    constructor
    · intro hemp
      rcases update_sub_percentage_cases r 100 with ⟨h, _⟩ | ⟨_, _, h⟩
      · rw [h] at hemp; exact absurd rfl hemp
      · exact hiff.mp (by rw [h])
    · intro hr
      rw [hiff.mpr hr]
      simp
  refine ⟨hne, hiff, ?_, ?_⟩
  · intro hmem
    by_contra hnone
    have hraws : ∀ raw ∈ before, raw < 10 ∨ raw = 100 := by
      intro raw hraw
      have h1 := hbefore raw hraw
      have h2 : ¬ (10 ≤ raw ∧ raw ≤ 99) := fun h => hnone ⟨raw, hraw, h⟩
      omega
    rw [feed_stays_zero before (reset_sub_percentage r0).1 rfl hraws] at hmem
    rcases update_sub_percentage_cases (reset_sub_percentage r0).1 x with
      ⟨h, _⟩ | ⟨_, hspike, h⟩
    · rw [h] at hmem; simp at hmem
    · rw [h] at hmem
      simp only [List.mem_singleton, SinkCall.pk_backend_change_sub_percentage.injEq] at hmem
      have hx100 : x = 100 := by omega
      exact hspike ⟨rfl, hx100⟩
  · simp [feed, update_sub_percentage, reset_sub_percentage]

/-- Witness of C18 (amended): with 50 stored, `update_sub_percentage (100)` sends 100;
after a reset and the raw values 5 and 100, the raw value 100 sends
nothing. -/
theorem completion_swallowed_witness :
    (10 ∣ 50 ∧ 50 ≤ 100 ∧ (∀ raw ∈ [5, 100], raw ≤ 100) ∧ 100 ≤ 100) ∧
      (update_sub_percentage { _package_id := none, _sub_percentage := 50 } 100).2 =
        [.pk_backend_change_sub_percentage 100] ∧
      (feed (reset_sub_percentage initWithBackend).1 [5, 100, 100]).2 = [] :=
  ⟨by decide,
    (completion_swallowed { _package_id := none, _sub_percentage := 50 } (by decide)
      (by decide) initWithBackend [5, 100] 100 (by decide) (by decide)).2.1.mpr
      (by decide),
    (completion_swallowed { _package_id := none, _sub_percentage := 50 } (by decide)
      (by decide) initWithBackend [5, 100] 100 (by decide) (by decide)).2.2.2⟩

/-- Each update that sends a value raises the stored value by at least ten;
with raw values of at most 100 the stored value stays at most 100. -/
theorem feed_count (raws : List Nat) :
    ∀ r : ZyppBackendReceiver, 10 ∣ r._sub_percentage → r._sub_percentage ≤ 100 →
      (∀ raw ∈ raws, raw ≤ 100) →
      r._sub_percentage + 10 * (feed r raws).2.length ≤ (feed r raws).1._sub_percentage ∧
      (feed r raws).1._sub_percentage ≤ 100 ∧ 10 ∣ (feed r raws).1._sub_percentage := by
  induction raws with
  | nil => intro r hdiv hle _; exact ⟨by simp [feed], hle, hdiv⟩
  | cons p ps ih =>
    intro r hdiv hle hraws
    have hp : p ≤ 100 := hraws p (List.mem_cons_self _ _)
    have hrest : ∀ raw ∈ ps, raw ≤ 100 := fun raw h => hraws raw (List.mem_cons_of_mem _ h)
    simp only [feed]
    rcases update_sub_percentage_cases r p with ⟨h, _⟩ | ⟨hlt, _, h⟩
    · rw [h]
      simpa using ih r hdiv hle hrest
    · rw [h]
      have h1 : 10 ∣ p / 10 * 10 := Dvd.intro_left _ rfl
      have h2 : p / 10 * 10 ≤ 100 := by omega
      have h3 := ih { r with _sub_percentage := p / 10 * 10 } h1 h2 hrest
      obtain ⟨k, hk⟩ := hdiv
      refine ⟨?_, h3.2.1, h3.2.2⟩
      have h4 := h3.1
      simp only [List.singleton_append, List.length_cons] at h4 ⊢
      omega

/-- C19 (bounded output).  For every receiver and every sequence, of any length,
of raw values of at most 100 fed to `update_sub_percentage` after a
`reset_sub_percentage`, the updates make at most 10 sink calls, all of them
`pk_backend_change_sub_percentage` calls. -/
theorem feed_bounded (r : ZyppBackendReceiver) (raws : List Nat)
    (hraws : ∀ raw ∈ raws, raw ≤ 100) :
    (feed (reset_sub_percentage r).1 raws).2.length ≤ 10 ∧
      (sub_percentages (feed (reset_sub_percentage r).1 raws).2).length ≤ 10 ∧
      (feed (reset_sub_percentage r).1 raws).2 =
        (sub_percentages (feed (reset_sub_percentage r).1 raws).2).map
          SinkCall.pk_backend_change_sub_percentage := by
  have h := feed_count raws (reset_sub_percentage r).1 (dvd_zero 10) (Nat.zero_le _) hraws
  have hlen : (feed (reset_sub_percentage r).1 raws).2.length ≤ 10 := by
    have h1 := h.1
    have h2 := h.2.1
    have h0 : (reset_sub_percentage r).1._sub_percentage = 0 := rfl
    omega
  have hmap := feed_trace_eq_map raws (reset_sub_percentage r).1
  refine ⟨hlen, ?_, hmap⟩
  have hl := congrArg List.length hmap
  rw [List.length_map] at hl
  omega

/-- Witness of C19: the raw values 10, 20, ..., 100, each given twice, make ten
sink calls. -/
theorem feed_bounded_witness :
    (∀ raw ∈ [10, 10, 20, 20, 30, 30, 40, 40, 50, 50, 60, 60, 70, 70, 80, 80, 90, 90, 100, 100],
        raw ≤ 100) ∧
      (feed (reset_sub_percentage initWithBackend).1
        [10, 10, 20, 20, 30, 30, 40, 40, 50, 50, 60, 60, 70, 70, 80, 80, 90, 90, 100, 100]).2.length
        = 10 ∧
      (feed (reset_sub_percentage initWithBackend).1
        [10, 10, 20, 20, 30, 30, 40, 40, 50, 50, 60, 60, 70, 70, 80, 80, 90, 90, 100, 100]).2.length
        ≤ 10 :=
  ⟨by decide, by decide,
    (feed_bounded initWithBackend
      [10, 10, 20, 20, 30, 30, 40, 40, 50, 50, 60, 60, 70, 70, 80, 80, 90, 90, 100, 100]
      (by decide)).1⟩

/-! ## Cursor bounds and basenames with too few dashes -/

/-- The architecture loop only moves the cursor down. -/
theorem arch_scan_le (buf : List Char) : ∀ t, arch_scan buf t ≤ t := by
  intro t
  induction t with
  | zero => simp [arch_scan]
  | succ t ih =>
    simp only [arch_scan]
    split
    · exact Nat.le_succ_of_le ih
    · exact le_rfl

/-- The edition loop only moves the cursor down. -/
theorem edition_scan_le (buf : List Char) : ∀ t f, edition_scan buf t f ≤ t := by
  intro t
  induction t with
  | zero => intro f; simp [edition_scan]
  | succ t ih =>
    intro f
    simp only [edition_scan]
    split
    · split
      · exact Nat.le_succ_of_le (ih true)
      · exact le_rfl
    · exact Nat.le_succ_of_le (ih f)

/-- The architecture loop does not pass a dot at a cell `i ≥ 1`. -/
theorem arch_scan_ge (buf : List Char) (i : Nat) (hi : 1 ≤ i) (hdot : buf.getD i NUL = '.') :
    ∀ t, i ≤ t → i ≤ arch_scan buf t := by
  intro t
  induction t with
  | zero => intro h; omega
  | succ t ih =>
    intro h
    simp only [arch_scan]
    split
    · rename_i hne
      have hit : i ≠ t + 1 := by
        intro e
        rw [← e, hdot] at hne
        simp at hne
      exact ih (by omega)
    · exact h

/-- The backward scan, started on or right of an occurrence of the needle with
no occurrence further right, stops on that occurrence. -/
theorem g_strrstr_scan_last (haystack needle pre : List Char)
    (hat : needle.isPrefixOf (haystack.drop pre.length) = true)
    (hlater : ∀ j, pre.length < j → needle.isPrefixOf (haystack.drop j) = false) :
    ∀ k, g_strrstr_scan haystack needle (pre.length + k) = some pre.length := by
  intro k
  induction k with
  | zero =>
    cases hl : pre.length with
    | zero =>
      rw [hl] at hat
      simp only [List.drop_zero] at hat
      simp [g_strrstr_scan, hat]
    | succ p =>
      rw [hl] at hat
      simp [g_strrstr_scan, hat]
  | succ k ih =>
    have e : pre.length + (k + 1) = (pre.length + k) + 1 := rfl
    have hno := hlater (pre.length + k + 1) (by omega)
    rw [e]
    simp only [g_strrstr_scan, hno]
    simpa using ih

/-- `g_strrstr` on the copy of a basename points at the occurrence of `.rpm`
that has no other occurrence to its right. -/
theorem g_strrstr_last (b pre suf : List Char)
    (hb : cstr b = pre ++ ".rpm".toList ++ suf)
    (hlast : ¬ ".rpm".toList <:+: "rpm".toList ++ suf) :
    g_strrstr (g_strdup b) ".rpm".toList = some pre.length := by
  have hrpm : ".rpm".toList = ['.', 'r', 'p', 'm'] := rfl
  have hrpm2 : "rpm".toList = ['r', 'p', 'm'] := rfl
  rw [hrpm] at hb
  rw [hrpm, hrpm2] at hlast
  have hat : ['.', 'r', 'p', 'm'].isPrefixOf ((cstr b).drop pre.length) = true := by
    rw [hb, List.append_assoc, List.drop_left, List.isPrefixOf_iff_prefix]
    exact List.prefix_append _ _
  have hlater : ∀ j, pre.length < j → ['.', 'r', 'p', 'm'].isPrefixOf ((cstr b).drop j) = false := by
    intro j hj
    by_contra hp
    rw [Bool.not_eq_false, List.isPrefixOf_iff_prefix] at hp
    apply hlast
    obtain ⟨m, hm⟩ : ∃ m, j = (pre.length + 1) + m := ⟨j - (pre.length + 1), by omega⟩
    have hd : (cstr b).drop j = (['r', 'p', 'm'] ++ suf).drop m := by
      have h1 : pre ++ ['.', 'r', 'p', 'm'] ++ suf = (pre ++ ['.']) ++ (['r', 'p', 'm'] ++ suf) := by
        simp
      have h2 : (pre ++ ['.']).length = pre.length + 1 := by simp
      rw [hb, hm, h1, ← h2, ← List.drop_drop, List.drop_left]
    rw [hd] at hp
    exact hp.isInfix.trans (List.drop_suffix m _).isInfix
  have hlen : (cstr b).length = pre.length + 4 + suf.length := by
    rw [hb]; simp only [List.length_append, List.length_cons, List.length_nil]
  unfold g_strrstr
  simp only [cstr_g_strdup, cstr_rpm]
  have h4 : ¬ ((cstr b).length < 4) := by omega
  have hsub : (cstr b).length - 4 = pre.length + suf.length := by omega
  simp [h4, hsub, g_strrstr_scan_last (cstr b) ['.', 'r', 'p', 'm'] pre hat hlater suf.length]


/-- With a dot at a cell `i ≥ 1` left of the last `.rpm`, the three writes fall
on cells `e < q < pre.length` of the buffer, with `i ≤ q`, and the package id
is built from the strings that start at cells `0`, `e + 1` and `q + 1`. -/
theorem build_package_id_from_url_in_bounds (url : Url) (pre suf : List Char) (i : Nat)
    (hb : cstr url.basename = pre ++ ".rpm".toList ++ suf)
    (hlast : ¬ ".rpm".toList <:+: "rpm".toList ++ suf)
    (hi : 1 ≤ i) (hdot : pre[i]? = some '.')
    (buf1 buf2 buf3 : List Char) (q e : Nat)
    (hbuf1 : buf1 = (g_strdup url.basename).set pre.length NUL)
    (hq : q = arch_scan buf1 (pre.length - 1))
    (hbuf2 : buf2 = buf1.set q NUL)
    (he : e = edition_scan buf2 (q - 1) false)
    (hbuf3 : buf3 = buf2.set e NUL) :
    g_strrstr (g_strdup url.basename) ".rpm".toList = some pre.length ∧
      i ≤ q ∧ q < pre.length ∧ e < q ∧ pre.length < (g_strdup url.basename).length ∧
      build_package_id_from_url url =
        .ok (some (pk_package_id_build (cstrAt buf3 0) (cstrAt buf3 (e + 1))
          (cstrAt buf3 (q + 1)) "opensuse".toList)) := by
  have hg := g_strrstr_last url.basename pre suf hb hlast
  have hip : i < pre.length := by
    rcases List.getElem?_eq_some.mp hdot with ⟨h, _⟩
    exact h
  have hdup : g_strdup url.basename = pre ++ (".rpm".toList ++ (suf ++ [NUL])) := by
    unfold g_strdup
    rw [hb]
    simp
  have hread : buf1.getD i NUL = '.' := by
    rw [hbuf1, List.getD_eq_getElem?_getD, List.getElem?_set_ne (by omega), hdup,
      List.getElem?_append_left hip, hdot]
    rfl
  have hq1 : i ≤ q := by
    rw [hq]
    exact arch_scan_ge buf1 i hi hread (pre.length - 1) (by omega)
  have hq2 : q ≤ pre.length - 1 := by
    rw [hq]
    exact arch_scan_le buf1 _
  have he1 : e ≤ q - 1 := by
    rw [he]
    exact edition_scan_le buf2 _ _
  have hlen : pre.length < (g_strdup url.basename).length := by
    rw [hdup]
    simp
  obtain ⟨t, ht⟩ : ∃ t, pre.length = t + 1 := ⟨pre.length - 1, by omega⟩
  obtain ⟨t', ht'⟩ : ∃ t', q = t' + 1 := ⟨q - 1, by omega⟩
  refine ⟨hg, hq1, by omega, by omega, hlen, ?_⟩
  have hqt : arch_scan ((g_strdup url.basename).set (t + 1) NUL) t = t' + 1 := by
    rw [← ht', hq, hbuf1, ht]
    rfl
  have het : edition_scan (((g_strdup url.basename).set (t + 1) NUL).set (t' + 1) NUL) t' false =
      e := by
    rw [he, hbuf2, hbuf1, ht, ht']
    rfl
  have hb3 : buf3 = (((g_strdup url.basename).set (t + 1) NUL).set (t' + 1) NUL).set e NUL := by
    rw [hbuf3, hbuf2, hbuf1, ht, ht']
  unfold build_package_id_from_url
  simp only [hg, ht, hqt, het, ← hb3, ht']


/-- After the first dash, the edition loop runs to cell 0 when no cell from 1
to the cursor holds a dash. -/
theorem edition_scan_true_zero (buf : List Char) :
    ∀ t, (∀ j, 1 ≤ j → j ≤ t → buf.getD j NUL ≠ '-') → edition_scan buf t true = 0 := by
  intro t
  induction t with
  | zero => intro _; simp [edition_scan]
  | succ t ih =>
    intro h
    have hne := h (t + 1) (by omega) le_rfl
    simp only [edition_scan, beq_iff_eq, hne, if_false]
    exact ih (fun j h1 h2 => h j h1 (by omega))

/-- The edition loop runs to cell 0 when the cells from 1 to the cursor hold
at most one dash. -/
theorem edition_scan_false_zero (buf : List Char) :
    ∀ t, (∀ j1 j2, 1 ≤ j1 → j1 < j2 → j2 ≤ t → buf.getD j1 NUL = '-' →
        buf.getD j2 NUL = '-' → False) →
      edition_scan buf t false = 0 := by
  intro t
  induction t with
  | zero => intro _; simp [edition_scan]
  | succ t ih =>
    intro h
    by_cases hd : buf.getD (t + 1) NUL = '-'
    · simp only [edition_scan, beq_iff_eq, hd, if_true]
      exact edition_scan_true_zero buf t
        (fun j h1 h2 hj => h j (t + 1) h1 (by omega) le_rfl hj hd)
    · simp only [edition_scan, beq_iff_eq, hd, if_false]
      exact ih (fun j1 j2 h1 h2 h3 => h j1 j2 h1 h2 (by omega))

/-- A list with fewer than two `c` does not hold `c` at two places. -/
theorem count_lt_two (c : Char) (l : List Char) (h : l.count c < 2) :
    ∀ j1 j2 : Nat, j1 < j2 → l[j1]? = some c → l[j2]? = some c → False := by
  induction l with
  | nil => intro j1 j2 _ h1 _; simp at h1
  | cons x xs ih =>
    intro j1 j2 hlt h1 h2
    obtain ⟨k2, hk2⟩ : ∃ k, j2 = k + 1 := ⟨j2 - 1, by omega⟩
    subst hk2
    rw [List.getElem?_cons_succ] at h2
    cases j1 with
    | zero =>
      simp only [List.getElem?_cons_zero, Option.some.injEq] at h1
      subst h1
      rw [List.count_cons_self] at h
      have hmem : x ∈ xs := List.getElem?_mem h2
      have hpos : 0 < xs.count x := List.count_pos_iff.mpr hmem
      omega
    | succ k1 =>
      rw [List.getElem?_cons_succ] at h1
      have hle : xs.count c ≤ (x :: xs).count c := by
        rw [List.count_cons]
        omega
      exact ih (by omega) k1 k2 (by omega) h1 h2


/-- C12, amended.  For every basename `stem.arch.rpm` with a non-empty `stem`
that has fewer than two `-` and an `arch` without `.` (C strings, so without
NUL): `g_strrstr` points at `.rpm`, the architecture loop stops on the dot
after `stem`, and the edition loop runs to cell 0 of the basename without
meeting a second dash.  The function has no check for this: it returns a
package id, not NULL, and has no fault.  So the `start` callback of the
download receiver makes its three sink calls with that id and the receiver
holds it. -/
theorem download_start_too_few_dashes (stem arch b : List Char)
    (hb : b = stem ++ ".".toList ++ arch ++ ".rpm".toList)
    (hstem : stem ≠ []) (hdash : stem.count '-' < 2) (harch : '.' ∉ arch)
    (nstem : NUL ∉ stem) (narch : NUL ∉ arch) (r : ZyppBackendReceiver) :
    g_strrstr (g_strdup b) ".rpm".toList = some (stem.length + 1 + arch.length) ∧
      arch_scan ((g_strdup b).set (stem.length + 1 + arch.length) NUL)
        (stem.length + arch.length) = stem.length ∧
      edition_scan (((g_strdup b).set (stem.length + 1 + arch.length) NUL).set stem.length NUL)
        (stem.length - 1) false = 0 ∧
      ∃ id, build_package_id_from_url ⟨b⟩ = .ok (some id) ∧
        DownloadProgressReportReceiver.start r ⟨b⟩ =
          .ok ({ _package_id := some id, _sub_percentage := 0 },
            [.pk_backend_change_status .PK_STATUS_ENUM_DOWNLOAD,
             .pk_backend_package .PK_INFO_ENUM_DOWNLOADING id summary_todo,
             .pk_backend_change_sub_percentage 0]) := by
  have hp : NUL ≠ '.' := by decide
  have e1 : ".".toList = ['.'] := rfl
  have e2 : ".rpm".toList = ['.', 'r', 'p', 'm'] := rfl
  have hb' : b = (stem ++ '.' :: arch) ++ ".rpm".toList ++ [] := by
    rw [hb, e1]; simp
  have hnb : NUL ∉ b := by
    rw [hb, e1, e2]
    simp only [List.mem_append, List.mem_cons, List.mem_singleton, not_or]
    have h1 : NUL ≠ 'r' := by decide
    have h2 : NUL ≠ 'p' := by decide
    have h3 : NUL ≠ 'm' := by decide
    simp [nstem, narch, hp, h1, h2, h3]
  have hlenpre : (stem ++ '.' :: arch).length = stem.length + 1 + arch.length := by
    simp only [List.length_append, List.length_cons]; omega
  have hdot : (stem ++ '.' :: arch)[stem.length]? = some '.' := by
    rw [List.getElem?_append_right le_rfl]
    simp
  have hin := build_package_id_from_url_in_bounds ⟨b⟩ (stem ++ '.' :: arch) [] stem.length
    (by rw [cstr_self_of_not_mem b hnb]; exact hb') (by decide)
    (Nat.one_le_iff_ne_zero.mpr (fun h => hstem (List.length_eq_zero.mp h))) hdot
    _ _ _ _ _ rfl rfl rfl rfl rfl
  have hg := hin.1
  rw [hlenpre] at hg
  -- the buffer after the first write
  have w1 : (g_strdup b).set (stem.length + 1 + arch.length) NUL =
      stem ++ '.' :: (arch ++ NUL :: ['r', 'p', 'm', NUL]) := by
    have h := set_split (stem ++ '.' :: arch) ['r', 'p', 'm', NUL] '.' NUL
    rw [hlenpre] at h
    rw [g_strdup_of_not_mem b hnb, hb, e1, e2]
    simpa using h
  have s1 : arch_scan (stem ++ '.' :: (arch ++ NUL :: ['r', 'p', 'm', NUL]))
      (stem.length + arch.length) = stem.length :=
    arch_scan_stop stem arch (NUL :: ['r', 'p', 'm', NUL]) hstem harch arch.length le_rfl
  have w2 : (stem ++ '.' :: (arch ++ NUL :: ['r', 'p', 'm', NUL])).set stem.length NUL =
      stem ++ NUL :: (arch ++ NUL :: ['r', 'p', 'm', NUL]) := set_split _ _ _ _
  have s2 : edition_scan (stem ++ NUL :: (arch ++ NUL :: ['r', 'p', 'm', NUL]))
      (stem.length - 1) false = 0 := by
    apply edition_scan_false_zero
    intro j1 j2 h1 h2 h3 hj1 hj2
    have hpos : 0 < stem.length := List.length_pos.mpr hstem
    have get : ∀ j, j ≤ stem.length - 1 →
        (stem ++ NUL :: (arch ++ NUL :: ['r', 'p', 'm', NUL])).getD j NUL = '-' →
        stem[j]? = some '-' := by
      intro j hj hget
      have hjl : j < stem.length := by omega
      rw [List.getD_eq_getElem?_getD, List.getElem?_append_left hjl,
        List.getElem?_eq_getElem hjl] at hget
      rw [List.getElem?_eq_getElem hjl]
      simpa using hget
    exact count_lt_two '-' stem hdash j1 j2 h2 (get j1 (by omega) hj1) (get j2 h3 hj2)
  refine ⟨hg, by rw [w1]; exact s1, by rw [w1, w2]; exact s2, ?_⟩
  refine ⟨_, hin.2.2.2.2.2, ?_⟩
  simp [DownloadProgressReportReceiver.start, hin.2.2.2.2.2, reset_sub_percentage,
    clear_package_id_eq]

/-- C20 (in-bounds scanning).  Let the basename (the C string `basename` of the
source) be `pre ++ ".rpm" ++ suf` with no `.rpm` further right, and let `pre`
hold a dot at a cell `i ≥ 1`.  Then `g_strrstr` returns cell `pre.length`; the
architecture loop ends on a cell `q` with `i ≤ q < pre.length` and the edition
loop on a cell `e` with `0 ≤ e < q`, all of them cells of the buffer, whose
length is that of the basename plus one; both loops are total functions of the
cursor; the function returns the package id built from the strings at cells
`0`, `e + 1` and `q + 1`, and does not take the out-of-bounds branch.  For the
basename `foo.rpm`, which has no such dot, the cursor is moved below cell 0. -/
theorem build_package_id_from_url_cursor (url : Url) (pre suf : List Char) (i : Nat)
    (hb : cstr url.basename = pre ++ ".rpm".toList ++ suf)
    (hlast : ¬ ".rpm".toList <:+: "rpm".toList ++ suf)
    (hi : 1 ≤ i) (hdot : pre[i]? = some '.')
    (buf1 buf2 buf3 : List Char) (q e : Nat)
    (hbuf1 : buf1 = (g_strdup url.basename).set pre.length NUL)
    (hq : q = arch_scan buf1 (pre.length - 1))
    (hbuf2 : buf2 = buf1.set q NUL)
    (he : e = edition_scan buf2 (q - 1) false)
    (hbuf3 : buf3 = buf2.set e NUL) :
    g_strrstr (g_strdup url.basename) ".rpm".toList = some pre.length ∧
      (0 ≤ e ∧ e < q ∧ i ≤ q ∧ q < pre.length ∧
        pre.length < (g_strdup url.basename).length ∧
        (g_strdup url.basename).length = (cstr url.basename).length + 1) ∧
      build_package_id_from_url url =
        .ok (some (pk_package_id_build (cstrAt buf3 0) (cstrAt buf3 (e + 1))
          (cstrAt buf3 (q + 1)) "opensuse".toList)) ∧
      build_package_id_from_url url ≠ .fault .outOfBounds ∧
      build_package_id_from_url ⟨"foo.rpm".toList⟩ = .fault .outOfBounds := by
  have h := build_package_id_from_url_in_bounds url pre suf i hb hlast hi hdot buf1 buf2 buf3
    q e hbuf1 hq hbuf2 he hbuf3
  refine ⟨h.1, ⟨Nat.zero_le _, h.2.2.2.1, h.2.1, h.2.2.1, h.2.2.2.2.1, ?_⟩, h.2.2.2.2.2, ?_,
    by decide⟩
  · simp [g_strdup]
  · rw [h.2.2.2.2.2]
    simp


/-- Counterexample to C12 as stated: for the basenames `foo-1.i586.rpm` and
`foo.i586.rpm` the function returns a package id, `;oo-1;i586;opensuse` and
`;oo;i586;opensuse`, not NULL, and the `start` callback of the download
receiver makes three sink calls and holds the id. -/
theorem too_few_dashes_not_null :
    build_package_id_from_url ⟨"foo-1.i586.rpm".toList⟩ =
        .ok (some ";oo-1;i586;opensuse".toList) ∧
      build_package_id_from_url ⟨"foo.i586.rpm".toList⟩ =
        .ok (some ";oo;i586;opensuse".toList) ∧
      DownloadProgressReportReceiver.start initWithBackend ⟨"foo-1.i586.rpm".toList⟩ =
        .ok ({ _package_id := some ";oo-1;i586;opensuse".toList, _sub_percentage := 0 },
          [.pk_backend_change_status .PK_STATUS_ENUM_DOWNLOAD,
           .pk_backend_package .PK_INFO_ENUM_DOWNLOADING ";oo-1;i586;opensuse".toList
             summary_todo,
           .pk_backend_change_sub_percentage 0]) := by
  decide

/-- Witness of C12 (amended) at the basename `foo-1.i586.rpm`. -/
theorem download_start_too_few_dashes_witness :
    ("foo-1".toList ≠ [] ∧ "foo-1".toList.count '-' < 2 ∧ '.' ∉ "i586".toList ∧
        "foo-1.i586.rpm".toList = "foo-1".toList ++ ".".toList ++ "i586".toList ++ ".rpm".toList) ∧
      ∃ id, build_package_id_from_url ⟨"foo-1.i586.rpm".toList⟩ = .ok (some id) ∧
        DownloadProgressReportReceiver.start initWithBackend ⟨"foo-1.i586.rpm".toList⟩ =
          .ok ({ _package_id := some id, _sub_percentage := 0 },
            [.pk_backend_change_status .PK_STATUS_ENUM_DOWNLOAD,
             .pk_backend_package .PK_INFO_ENUM_DOWNLOADING id summary_todo,
             .pk_backend_change_sub_percentage 0]) :=
  ⟨by decide,
    (download_start_too_few_dashes "foo-1".toList "i586".toList "foo-1.i586.rpm".toList
      (by decide) (by decide) (by decide) (by decide) (by decide) (by decide)
      initWithBackend).2.2.2⟩

/-- Witness of C20 at the basename `lynx-2.8.6-63.i586.rpm`, with the dot at
cell 13: the loops end on the cells 13 and 4. -/
theorem build_package_id_from_url_cursor_witness :
    (cstr "lynx-2.8.6-63.i586.rpm".toList = "lynx-2.8.6-63.i586".toList ++ ".rpm".toList ++ [] ∧
        1 ≤ 13 ∧ "lynx-2.8.6-63.i586".toList[13]? = some '.') ∧
      g_strrstr (g_strdup "lynx-2.8.6-63.i586.rpm".toList) ".rpm".toList =
        some "lynx-2.8.6-63.i586".toList.length ∧
      build_package_id_from_url ⟨"lynx-2.8.6-63.i586.rpm".toList⟩ ≠ .fault .outOfBounds :=
  ⟨by decide,
    (build_package_id_from_url_cursor ⟨"lynx-2.8.6-63.i586.rpm".toList⟩
      "lynx-2.8.6-63.i586".toList [] 13 (by decide) (by decide) (by decide) (by decide)
      _ _ _ 13 4 rfl (by decide) rfl (by decide) rfl).1,
    (build_package_id_from_url_cursor ⟨"lynx-2.8.6-63.i586.rpm".toList⟩
      "lynx-2.8.6-63.i586".toList [] 13 (by decide) (by decide) (by decide) (by decide)
      _ _ _ 13 4 rfl (by decide) rfl (by decide) rfl).2.2.2.1⟩

end ZyppBackend
